import Mathlib

/-!
# Frame selection engine of `Frontend/src/components/Frames.jsx`

A shallow embedding of the range parser, the specific-frame parser and the
reconciliation arithmetic of the `FrameSelectionTool` component.

Modelling conventions.

* A JavaScript string is a `List Char` (`JSString`).
* A JavaScript number that holds an integer is an `Int`; a number that may be
  `NaN` is an `Option Int` with `none` for `NaN`, and `Infinity` is written
  `2^1024`, the value the rounding reaches when it overflows.
* `parseInt` returns the double nearest to the integer it reads (`toDouble`),
  and a number is printed as the language prints a double (`numberToString`).
  Sums and differences of numbers are exact integer arithmetic: the program
  computes them on frames within the bound and on the requested total, which
  validation keeps within the bound, where doubles are exact as long as the
  bound is below `2^53`.
* A `throw new Error(msg)` is `Except.error msg`; the message is the text of
  the template literal in the source.
* The component state `totalFrames` (the frame bound) is the parameter `B`; in
  a message it is printed with all its digits, as the language prints a bound
  up to `2^53`.
-/

namespace Frames

/-- A JavaScript string, as the list of its characters. -/
abbrev JSString := List Char

/-! ## String primitives of the language -/

/-- The characters removed by `String.prototype.trim` and skipped by
`parseInt`: ECMAScript `WhiteSpace` and `LineTerminator`. -/
def isWhiteSpace (c : Char) : Bool :=
  let n := c.toNat
  n == 0x09 || n == 0x0A || n == 0x0B || n == 0x0C || n == 0x0D || n == 0x20 ||
  n == 0xA0 || n == 0x1680 || (0x2000 ≤ n && n ≤ 0x200A) || n == 0x2028 ||
  n == 0x2029 || n == 0x202F || n == 0x205F || n == 0x3000 || n == 0xFEFF

/-- Leading white space removed. -/
def trimStart (s : JSString) : JSString := s.dropWhile isWhiteSpace

/-- Trailing white space removed. -/
def trimEnd (s : JSString) : JSString := (s.reverse.dropWhile isWhiteSpace).reverse

/-- `String.prototype.trim`. -/
def trim (s : JSString) : JSString := trimEnd (trimStart s)

/-- `String.prototype.split` with a one-character separator: the pieces between
the occurrences of `sep`; a text without `sep` is its own single piece. -/
def split (sep : Char) : JSString → List JSString
  | [] => [[]]
  | c :: cs =>
    if c = sep then [] :: split sep cs
    else
      match split sep cs with
      | [] => [[c]]
      | p :: ps => (c :: p) :: ps

/-- `String.prototype.includes` with a one-character needle. -/
def includes (s : JSString) (c : Char) : Bool := s.contains c

/-- The value of a character as a digit, letters standing for 10 to 35. -/
def digitValue (c : Char) : Option Nat :=
  let n := c.toNat
  if 48 ≤ n ∧ n ≤ 57 then some (n - 48)
  else if 97 ≤ n ∧ n ≤ 122 then some (n - 87)
  else if 65 ≤ n ∧ n ≤ 90 then some (n - 55)
  else none

/-- The value of a character as a digit of radix `R`, if it is one. -/
def radixDigit (R : Nat) (c : Char) : Option Nat :=
  match digitValue c with
  | some d => if d < R then some d else none
  | none => none

/-- The values of the longest prefix of `s` made of radix-`R` digits. -/
def digitsPrefix (R : Nat) : JSString → List Nat
  | [] => []
  | c :: cs =>
    match radixDigit R c with
    | some d => d :: digitsPrefix R cs
    | none => []

/-- The integer written by a list of radix-`R` digit values. -/
def digitsValue (R : Nat) (ds : List Nat) : Nat := ds.foldl (fun acc d => acc * R + d) 0

/-- The sign read by `parseInt` and the text after it. -/
def splitSign : JSString → Int × JSString
  | '-' :: r => (-1, r)
  | '+' :: r => (1, r)
  | s => (1, s)

/-- The radix chosen by `parseInt` without a radix argument and the text after
the `0x`/`0X` prefix, if there is one. -/
def splitRadix : JSString → Nat × JSString
  | '0' :: 'x' :: r => (16, r)
  | '0' :: 'X' :: r => (16, r)
  | s => (10, s)

/-- The number of low bits of `n` that a double cannot keep: 0 when
`n < 2^53`, otherwise the least `e` with `n / 2^e < 2^53`. The first argument
bounds the number of halvings. -/
def droppedBits : Nat → Nat → Nat
  | 0, _ => 0
  | fuel + 1, n => if n < 2 ^ 53 then 0 else droppedBits fuel (n / 2) + 1

/-- The integer `2^1024`, the least magnitude that overflows a double; it is
the value written for `Infinity`. -/
def infinity : Nat := (2 ^ 256) ^ 4

/-- The integer `n` rounded to a multiple of `2^e`, the nearest one, a tie
going to the even multiple. -/
def roundAt (e n : Nat) : Nat :=
  (if n % 2 ^ e > 2 ^ (e - 1) ∨ (n % 2 ^ e = 2 ^ (e - 1) ∧ (n / 2 ^ e) % 2 = 1)
    then n / 2 ^ e + 1 else n / 2 ^ e) * 2 ^ e

/-- The Number value of the mathematical integer `n`: the nearest double, a
tie going to the even significand. Integers up to `2^53` are doubles. Above,
`n` is rounded to 53 significant bits; a result of `2^1024` or more is
`Infinity`. -/
def toDouble (n : Nat) : Nat :=
  if n ≤ 2 ^ 53 then n
  else if roundAt (droppedBits n n) n ≥ infinity then infinity
  else roundAt (droppedBits n n) n

/-- The `parseInt(string)` builtin called without a radix: skip leading white
space, read a sign, read a `0x` prefix, take the longest run of digits and
return the Number for the integer they write; `none` is `NaN`. -/
def parseInt (s : JSString) : Option Int :=
  let signed := splitSign (trimStart s)
  let based := splitRadix signed.2
  let ds := digitsPrefix based.1 based.2
  if ds = [] then none else some (signed.1 * (toDouble (digitsValue based.1 ds) : Int))

/-- The decimal numeral of a natural number: all its digits. -/
def natToString (n : Nat) : JSString := Nat.toDigits 10 n

/-- The search of `Number::toString` for the shortest digits of the double
`x`, which has `D` decimal digits: for `k = 1, 2, ...` the `k`-digit numbers
`s` next to `x / 10^(D-k)` are tried, and the first `k` for which
`s * 10^(D-k)` reads back as `x` is taken, with the `s` nearer to `x` (the even
one on a tie). The result is `(s, n)` with `n` the number of digits of
`s * 10^(n-k)`. -/
def shortestSearch (x D : Nat) : Nat → Nat → Nat × Nat
  | 0, _ => (x, D)
  | fuel + 1, k =>
    let u := 10 ^ (D - k)
    let lo := x / u
    let hi := lo + 1
    if toDouble (lo * u) = x ∧ (hi < 10 ^ k ∧ toDouble (hi * u) = x) then
      if x - lo * u < hi * u - x ∨ (x - lo * u = hi * u - x ∧ lo % 2 = 0) then (lo, D)
      else (hi, D)
    else if toDouble (lo * u) = x then (lo, D)
    else if hi < 10 ^ k ∧ toDouble (hi * u) = x then (hi, D)
    else shortestSearch x D fuel (k + 1)

/-- The pair `(s, n)` of `Number::toString` for a double `x` above `2^53`: the
shortest digits `s` and the position `n` of the decimal point, such that
`s * 10^(n-k)` reads back as `x`. The power of ten just above `x` is tried
first. -/
def shortestDecimal (x : Nat) : Nat × Nat :=
  if toDouble (10 ^ (natToString x).length) = x then (1, (natToString x).length + 1)
  else shortestSearch x (natToString x).length (natToString x).length 1

/-- `Number::toString` on a non-negative integer Number: all the digits up to
`2^53`; `Infinity`; otherwise the shortest digits that read back as the same
double, followed by zeros up to 21 digits and in exponent form beyond. -/
def natNumberToString (x : Nat) : JSString :=
  if x ≤ 2 ^ 53 then natToString x
  else if x ≥ infinity then "Infinity".toList
  else if (shortestDecimal x).2 ≤ 21 then
    natToString (shortestDecimal x).1 ++
      List.replicate ((shortestDecimal x).2 - (natToString (shortestDecimal x).1).length) '0'
  else
    match natToString (shortestDecimal x).1 with
    | [] => []
    | [d] => d :: 'e' :: '+' :: natToString ((shortestDecimal x).2 - 1)
    | d :: ds => d :: '.' :: ds ++ 'e' :: '+' :: natToString ((shortestDecimal x).2 - 1)

/-- The text of an integer Number in a template literal, with a leading `-`
when negative. -/
def numberToString : Int → JSString
  | Int.ofNat n => natNumberToString n
  | Int.negSucc n => '-' :: natNumberToString (n + 1)

/-! ## Range parser -/

/-- A parsed unit of the range input: `{ start, end, type: 'range' }` or
`{ frame, type: 'single' }`. -/
inductive RangeToken where
  | range (start : Int) (stop : Int)
  | single (frame : Int)
  deriving DecidableEq, Repr

/-- The message of the error thrown for a malformed span. -/
def invalidRangeFormat (range : JSString) : JSString :=
  "Invalid range format: ".toList ++ range

/-- The message of the error thrown for a span beyond the bound. -/
def rangeOutOfBounds (B : Nat) (range : JSString) : JSString :=
  "Range ".toList ++ range ++ " exceeds total frames (".toList ++ natToString B ++ ")".toList

/-- The message of the error thrown for a malformed frame number. -/
def invalidFrameNumber (term : JSString) : JSString :=
  "Invalid frame number: ".toList ++ term

/-- The message of the error thrown for a frame beyond the bound. -/
def frameOutOfBounds (B : Nat) (frame : Int) : JSString :=
  "Frame ".toList ++ numberToString frame ++ " exceeds total frames (".toList ++
    natToString B ++ ")".toList

/-- The span branch of the loop body of `parseRanges`: the first two pieces
of `range.split('-')` are trimmed and read by `parseInt`; further pieces are
dropped by the destructuring `[start, end]`, and a missing piece is
`undefined`, for which `isNaN` holds. -/
def parseSpan (B : Nat) (range : JSString) : Except JSString RangeToken :=
  match (split '-' range).map (fun n => parseInt (trim n)) with
  | some start :: some stop :: _ =>
    if start ≤ 0 ∨ stop ≤ 0 ∨ start > stop then .error (invalidRangeFormat range)
    else if start > (B : Int) ∨ stop > (B : Int) then .error (rangeOutOfBounds B range)
    else .ok (.range start stop)
  | _ => .error (invalidRangeFormat range)

/-- The single-frame branch of the loop body of `parseRanges`. -/
def parseSingle (B : Nat) (range : JSString) : Except JSString RangeToken :=
  match parseInt range with
  | some frame =>
    if frame ≤ 0 then .error (invalidFrameNumber range)
    else if frame > (B : Int) then .error (frameOutOfBounds B frame)
    else .ok (.single frame)
  | none => .error (invalidFrameNumber range)

/-- The body of the `for (const range of ranges)` loop of `parseRanges`. -/
def parseRangeTerm (B : Nat) (range : JSString) : Except JSString RangeToken :=
  if includes range '-' then parseSpan B range else parseSingle B range

/-- The `for (const range of ranges)` loop of `parseRanges`: `parsed` is the
array `parsedRanges` built so far; the first throw ends the loop. -/
def parseRangesLoop (B : Nat) :
    List JSString → List RangeToken → Except JSString (List RangeToken)
  | [], parsed => .ok parsed
  | range :: rest, parsed =>
    match parseRangeTerm B range with
    | .error e => .error e
    | .ok tok => parseRangesLoop B rest (parsed ++ [tok])

/-- The function `parseRanges`. -/
def parseRanges (B : Nat) (rangeString : JSString) : Except JSString (List RangeToken) :=
  if trim rangeString = [] then .ok []
  else parseRangesLoop B ((split ',' rangeString).map trim) []

/-- The function `validateRanges`: `none` is `null`, `some msg` the message of
the caught error. -/
def validateRanges (B : Nat) (rangeString : JSString) : Option JSString :=
  if trim rangeString = [] then none
  else
    match parseRanges B rangeString with
    | .ok _ => none
    | .error msg => some msg

/-! ## Specific-frame parser -/

/-- The callback of the `map` in `parseSpecificFrames`. -/
def parseSpecificTerm (B : Nat) (f : JSString) : Except JSString Int :=
  match parseInt (trim f) with
  | some frame =>
    if frame ≤ 0 then .error (invalidFrameNumber (trim f))
    else if frame > (B : Int) then .error (frameOutOfBounds B frame)
    else .ok frame
  | none => .error (invalidFrameNumber (trim f))

/-- The `map` of `parseSpecificFrames` over the pieces, left to right; the
first throw ends it. -/
def parseSpecificLoop (B : Nat) : List JSString → Except JSString (List Int)
  | [] => .ok []
  | f :: rest =>
    match parseSpecificTerm B f with
    | .error e => .error e
    | .ok frame =>
      match parseSpecificLoop B rest with
      | .error e => .error e
      | .ok frames => .ok (frame :: frames)

/-- The function `parseSpecificFrames`. -/
def parseSpecificFrames (B : Nat) (frameString : JSString) : Except JSString (List Int) :=
  if trim frameString = [] then .ok []
  else parseSpecificLoop B (split ',' frameString)

/-- The function `validateSpecificFrames`. -/
def validateSpecificFrames (B : Nat) (frameString : JSString) : Option JSString :=
  if trim frameString = [] then none
  else
    match parseSpecificFrames B frameString with
    | .ok _ => none
    | .error msg => some msg

/-! ## Reconciliation engine -/

/-- The object returned by `calculateFrameSelection`. -/
structure Summary where
  rangeFrameCount : Int
  specificFrameCount : Nat
  totalSelectedFrames : Nat
  duplicateCount : Int
  extraFramesNeeded : Option Int
  totalRequested : Option Int
  isValid : Bool
  deriving DecidableEq, Repr

/-- The frames pushed by `for (let i = start; i <= end; i++) rangeFrames.push(i)`. -/
def expandSpan (start stop : Int) : List Int :=
  (List.range (stop + 1 - start).toNat).map (fun (k : Nat) => start + (k : Int))

/-- The callback of `ranges.forEach` acting on the pair
`(rangeFrameCount, rangeFrames)`. -/
def expandStep (acc : Int × List Int) : RangeToken → Int × List Int
  | .range start stop => (acc.1 + (stop - start + 1), acc.2 ++ expandSpan start stop)
  | .single frame => (acc.1 + 1, acc.2 ++ [frame])

/-- The `ranges.forEach` of `calculateFrameSelection`, from
`rangeFrameCount = 0` and `rangeFrames = []`. -/
def expandRanges (ranges : List RangeToken) : Int × List Int :=
  ranges.foldl expandStep (0, [])

/-- The members of `new Set(values)` in insertion order: a value already
present is not added again. -/
def newSet (values : List Int) : List Int :=
  values.foldl (fun s v => if v ∈ s then s else s ++ [v]) []

/-- `Math.max(0, x)` where `x` may be `NaN`. -/
def mathMaxZero : Option Int → Option Int
  | some x => some (max 0 x)
  | none => none

/-- `n <= x` where `x` may be `NaN`: a comparison with `NaN` is false. -/
def leNumber (n : Int) : Option Int → Bool
  | some x => decide (n ≤ x)
  | none => false

/-- The function `calculateFrameSelection`, on the component state
`totalFramesRequested`, `frameRanges`, `specificFrames`. -/
def calculateFrameSelection (B : Nat) (totalFramesRequested frameRanges specificFrames : JSString) :
    Except JSString Summary :=
  match parseRanges B frameRanges with
  | .error e => .error e
  | .ok ranges =>
    match parseSpecificFrames B specificFrames with
    | .error e => .error e
    | .ok specific =>
      let expanded := expandRanges ranges
      let rangeFrameCount := expanded.1
      let rangeFrames := expanded.2
      let allSelectedFrames := newSet (rangeFrames ++ specific)
      let totalSelectedFrames := allSelectedFrames.length
      let requested := parseInt totalFramesRequested
      let extraFramesNeeded :=
        mathMaxZero (requested.map (fun r => r - (totalSelectedFrames : Int)))
      let duplicateCount :=
        ((rangeFrames.length : Int) + (specific.length : Int)) - (totalSelectedFrames : Int)
      .ok { rangeFrameCount := rangeFrameCount
            specificFrameCount := specific.length
            totalSelectedFrames := totalSelectedFrames
            duplicateCount := duplicateCount
            extraFramesNeeded := extraFramesNeeded
            totalRequested := requested
            isValid := leNumber (totalSelectedFrames : Int) requested }

/-! ## Wizard: stage validation and transitions -/

/-- The function `validateTotalFrames`: `!value` holds of a string exactly when
it is empty; `none` is `null`. -/
def validateTotalFrames (B : Nat) (value : JSString) : Option JSString :=
  match parseInt value with
  | some num =>
    if value = [] ∨ num ≤ 0 then some "Please enter a valid positive number".toList
    else if num > (B : Int) then
      some ("Cannot exceed total available frames (".toList ++ natToString B ++ ")".toList)
    else none
  | none => some "Please enter a valid positive number".toList

/-- The state `errors`: an object with at most the keys `totalFrames`,
`ranges`, `specific` and `calculation`; `none` is an absent key. -/
structure ErrorMap where
  totalFrames : Option JSString
  ranges : Option JSString
  specific : Option JSString
  calculation : Option JSString
  deriving DecidableEq, Repr

/-- The object `{}`. -/
def ErrorMap.empty : ErrorMap :=
  { totalFrames := none, ranges := none, specific := none, calculation := none }

/-- The test `Object.keys(newErrors).length === 0`. -/
def ErrorMap.hasNoKeys (e : ErrorMap) : Bool :=
  e.totalFrames.isNone && e.ranges.isNone && e.specific.isNone && e.calculation.isNone

/-- The state of the component `FrameSelectionTool`. -/
structure WizardState where
  currentStep : Nat
  totalFramesRequested : JSString
  frameRanges : JSString
  specificFrames : JSString
  errors : ErrorMap
  calculation : Option Summary
  deriving DecidableEq, Repr

/-- The state set up by the `useState` calls. -/
def WizardState.initial : WizardState :=
  { currentStep := 1, totalFramesRequested := [], frameRanges := [], specificFrames := [],
    errors := ErrorMap.empty, calculation := none }

/-- The value stored by `if (err) newErrors.key = err`: the message when it is
truthy (a string that is not empty), no key otherwise. -/
def keepTruthy : Option JSString → Option JSString
  | some [] => none
  | some msg => some msg
  | none => none

/-- The object `newErrors` built by `handleStepValidation(step)`. -/
def stepErrors (B : Nat) (st : WizardState) (step : Nat) : ErrorMap :=
  { totalFrames :=
      if step ≥ 1 then keepTruthy (validateTotalFrames B st.totalFramesRequested) else none
    ranges := if step ≥ 2 then keepTruthy (validateRanges B st.frameRanges) else none
    specific :=
      if step ≥ 3 then keepTruthy (validateSpecificFrames B st.specificFrames) else none
    calculation := none }

/-- The function `handleStepValidation`: the state after `setErrors(newErrors)`
and the returned flag. -/
def handleStepValidation (B : Nat) (st : WizardState) (step : Nat) : WizardState × Bool :=
  ({ st with errors := stepErrors B st step }, (stepErrors B st step).hasNoKeys)

/-- The function `nextStep`. -/
def nextStep (B : Nat) (st : WizardState) : WizardState :=
  let validated := handleStepValidation B st st.currentStep
  if validated.2 then
    if st.currentStep = 3 then
      match calculateFrameSelection B st.totalFramesRequested st.frameRanges
          st.specificFrames with
      | .ok result =>
        { validated.1 with
            calculation := some result, currentStep := min (st.currentStep + 1) 4 }
      | .error msg =>
        { validated.1 with errors := { ErrorMap.empty with calculation := some msg } }
    else { validated.1 with currentStep := min (st.currentStep + 1) 4 }
  else validated.1

/-- The function `prevStep`. -/
def prevStep (st : WizardState) : WizardState :=
  { st with currentStep := max (st.currentStep - 1) 1, errors := ErrorMap.empty }

/-- The function `reset`. -/
def reset (_st : WizardState) : WizardState :=
  { currentStep := 1, totalFramesRequested := [], frameRanges := [], specificFrames := [],
    errors := ErrorMap.empty, calculation := none }

/-- What the user can do to the wizard: press a button, or type into the one
text field that the current step shows. -/
inductive WizardAction where
  | next
  | prev
  | reset
  | setTotalFramesRequested (value : JSString)
  | setFrameRanges (value : JSString)
  | setSpecificFrames (value : JSString)
  deriving DecidableEq, Repr

/-- The state after one action. A text field is rendered, and so can be
edited, only at its own step: the total at step 1, the ranges at step 2, the
specific frames at step 3. -/
def applyAction (B : Nat) (st : WizardState) : WizardAction → WizardState
  | .next => nextStep B st
  | .prev => prevStep st
  | .reset => reset st
  | .setTotalFramesRequested v =>
    if st.currentStep = 1 then { st with totalFramesRequested := v } else st
  | .setFrameRanges v => if st.currentStep = 2 then { st with frameRanges := v } else st
  | .setSpecificFrames v => if st.currentStep = 3 then { st with specificFrames := v } else st

/-- The state after a sequence of actions from the initial state. -/
def runActions (B : Nat) (actions : List WizardAction) : WizardState :=
  actions.foldl (applyAction B) WizardState.initial

/-! ## Upload validator (`Upload.jsx`) -/

/-- The result of `toLowerCase` on one character: the ASCII capitals, and the
two other characters whose small form contains an ASCII letter (the Kelvin sign
and the dotted capital I). Any other character is kept: its small form, when it
has one, is not ASCII, so comparisons with ASCII texts are unaffected. -/
def lowerChar (c : Char) : List Char :=
  if 65 ≤ c.toNat ∧ c.toNat ≤ 90 then [Char.ofNat (c.toNat + 32)]
  else if c.toNat = 0x212A then ['k']
  else if c.toNat = 0x0130 then ['i', Char.ofNat 0x0307]
  else [c]

/-- `String.prototype.toLowerCase`, as far as ASCII texts can tell. -/
def toLowerCase : JSString → JSString
  | [] => []
  | c :: cs => lowerChar c ++ toLowerCase cs

/-- The constant `allowedExtensions`. -/
def allowedExtensions : List JSString :=
  [".pdb".toList, ".psf".toList, ".dcd".toList, ".xyz".toList, ".gro".toList,
   ".trr".toList, ".xtc".toList, ".mol2".toList]

/-- The constant `maxFileSize`. -/
def maxFileSize : Nat := 500 * 1024 * 1024

/-- The two messages `validateFile` can return: `File type <ext> is not
supported. ...` and `File size exceeds 500MB limit. Current size: ...`, the
latter carrying the size it prints. -/
inductive UploadError where
  | unsupportedType (extension : JSString)
  | sizeExceeded (size : Nat)
  deriving DecidableEq, Repr

/-- The expression `'.' + file.name.split('.').pop().toLowerCase()`. -/
def fileExtension (name : JSString) : JSString :=
  '.' :: toLowerCase ((split '.' name).getLastD [])

/-- The function `validateFile` on a file with the given `name` and `size` in
bytes; `none` is `null`. -/
def validateFile (name : JSString) (size : Nat) : Option UploadError :=
  if ¬ fileExtension name ∈ allowedExtensions then
    some (.unsupportedType (fileExtension name))
  else if size > maxFileSize then some (.sizeExceeded size)
  else none

/-! ## Specification-side notions -/

/-- The frames a range token stands for, as a finite set: all of
`start..end` for a span, the one frame for a single. -/
def tokenFrames : RangeToken → Finset Int
  | .range start stop => Finset.Icc start stop
  | .single frame => {frame}

/-- The set union of the expansion of every range token and of the specific
frames. -/
def selectionUnion (ranges : List RangeToken) (specific : List Int) : Finset Int :=
  (ranges.foldr (fun t s => tokenFrames t ∪ s) ∅) ∪ specific.toFinset

/-- The number of frames a range token contributes to the raw count. -/
def tokenCount : RangeToken → Int
  | .range start stop => stop - start + 1
  | .single _ => 1

/-- The invariant of a range token under the bound `B`. -/
def RangeToken.Valid (B : Nat) : RangeToken → Prop
  | .range start stop => 1 ≤ start ∧ start ≤ stop ∧ stop ≤ (B : Int)
  | .single frame => 1 ≤ frame ∧ frame ≤ (B : Int)

/-- The frames pushed for one token by the `forEach` callback. -/
def tokenList : RangeToken → List Int
  | .range start stop => expandSpan start stop
  | .single frame => [frame]

/-- The frames pushed for a list of tokens, in order. -/
def expandAll : List RangeToken → List Int
  | [] => []
  | t :: ts => tokenList t ++ expandAll ts

/-- A decimal digit character, `'0'` to `'9'`. -/
def IsDecDigit (c : Char) : Prop := 48 ≤ c.toNat ∧ c.toNat ≤ 57

instance : DecidablePred IsDecDigit := fun c => by
  unfold IsDecDigit
  infer_instance

/-- The value of a list of decimal digit characters. -/
def decValue (s : JSString) : Nat := s.foldl (fun acc c => acc * 10 + (c.toNat - 48)) 0

/-- The text `a-b` of a span between two decimal numerals. -/
def spanText (a b : Nat) : JSString := natToString a ++ '-' :: natToString b

/-- The invariant of the wizard: the step is between 1 and 4, and at step 4
the stored summary is the result of `calculateFrameSelection` on the current
texts, all three of which validate. -/
def WizardInvariant (B : Nat) (st : WizardState) : Prop :=
  1 ≤ st.currentStep ∧ st.currentStep ≤ 4 ∧
  (st.currentStep = 4 →
    ∃ s, st.calculation = some s ∧
      calculateFrameSelection B st.totalFramesRequested st.frameRanges st.specificFrames =
        .ok s ∧
      validateTotalFrames B st.totalFramesRequested = none ∧
      validateRanges B st.frameRanges = none ∧
      validateSpecificFrames B st.specificFrames = none)

/-- The wizard state at the given step with the given texts, no error and no
summary. -/
def stateAt (step : Nat) (total ranges specific : JSString) : WizardState :=
  { currentStep := step, totalFramesRequested := total, frameRanges := ranges,
    specificFrames := specific, errors := ErrorMap.empty, calculation := none }

/-! ## Lemmas on the reconciliation engine -/

theorem mem_expandSpan (start stop x : Int) :
    x ∈ expandSpan start stop ↔ start ≤ x ∧ x ≤ stop := by
  unfold expandSpan
  simp only [List.mem_map, List.mem_range]
  constructor
  · rintro ⟨k, hk, rfl⟩
    omega
  · rintro ⟨h1, h2⟩
    exact ⟨(x - start).toNat, by omega, by omega⟩

theorem length_expandSpan (start stop : Int) (h : start ≤ stop) :
    ((expandSpan start stop).length : Int) = stop - start + 1 := by
  unfold expandSpan
  simp only [List.length_map, List.length_range]
  omega

theorem foldl_expandStep (ranges : List RangeToken) (acc : Int × List Int) :
    ranges.foldl expandStep acc =
      (acc.1 + (ranges.map tokenCount).sum, acc.2 ++ expandAll ranges) := by
  induction ranges generalizing acc with
  | nil => simp [expandAll]
  | cons t ts ih =>
    rw [List.foldl_cons, ih]
    cases t <;>
      simp [expandStep, expandAll, tokenList, tokenCount, List.append_assoc, add_assoc]

theorem expandRanges_eq (ranges : List RangeToken) :
    expandRanges ranges = ((ranges.map tokenCount).sum, expandAll ranges) := by
  unfold expandRanges
  rw [foldl_expandStep]
  simp

theorem mem_tokenList (t : RangeToken) (x : Int) : x ∈ tokenList t ↔ x ∈ tokenFrames t := by
  cases t with
  | range start stop => simp [tokenList, tokenFrames, mem_expandSpan]
  | single frame => simp [tokenList, tokenFrames]

theorem toFinset_expandAll (ranges : List RangeToken) :
    (expandAll ranges).toFinset = ranges.foldr (fun t s => tokenFrames t ∪ s) ∅ := by
  induction ranges with
  | nil => simp [expandAll]
  | cons t ts ih =>
    simp only [expandAll, List.toFinset_append, ih, List.foldr_cons]
    congr 1
    ext x
    simp [mem_tokenList]

theorem length_expandAll (B : Nat) (ranges : List RangeToken)
    (h : ∀ t ∈ ranges, t.Valid B) :
    ((expandAll ranges).length : Int) = (ranges.map tokenCount).sum := by
  induction ranges with
  | nil => simp [expandAll]
  | cons t ts ih =>
    have ht := h t (List.mem_cons_self _ _)
    have hts := ih (fun u hu => h u (List.mem_cons_of_mem _ hu))
    simp only [expandAll, List.length_append, List.map_cons, List.sum_cons, Nat.cast_add, hts]
    congr 1
    cases t with
    | range start stop =>
      simp only [RangeToken.Valid] at ht
      simp only [tokenList, tokenCount]
      exact length_expandSpan start stop ht.2.1
    | single frame => simp [tokenList, tokenCount]

theorem foldl_newSet (values s : List Int) (hs : s.Nodup) :
    (values.foldl (fun s v => if v ∈ s then s else s ++ [v]) s).Nodup ∧
      ∀ x, x ∈ values.foldl (fun s v => if v ∈ s then s else s ++ [v]) s ↔ x ∈ s ∨ x ∈ values := by
  induction values generalizing s with
  | nil => simp [hs]
  | cons v vs ih =>
    rw [List.foldl_cons]
    by_cases hv : v ∈ s
    · rw [if_pos hv]
      refine ⟨(ih s hs).1, fun x => ?_⟩
      rw [(ih s hs).2 x]
      constructor
      · rintro (h | h)
        · exact Or.inl h
        · exact Or.inr (List.mem_cons_of_mem _ h)
      · rintro (h | h)
        · exact Or.inl h
        · rcases List.mem_cons.1 h with rfl | h
          · exact Or.inl hv
          · exact Or.inr h
    · rw [if_neg hv]
      have hs2 : (s ++ [v]).Nodup := by
        rw [List.nodup_append]
        refine ⟨hs, List.nodup_singleton v, ?_⟩
        intro a ha hb
        rw [List.mem_singleton] at hb
        exact hv (hb ▸ ha)
      refine ⟨(ih _ hs2).1, fun x => ?_⟩
      rw [(ih _ hs2).2 x]
      simp only [List.mem_append, List.mem_singleton, List.mem_cons]
      tauto

theorem length_newSet (values : List Int) : (newSet values).length = values.toFinset.card := by
  have h := foldl_newSet values [] List.nodup_nil
  unfold newSet
  rw [← List.toFinset_card_of_nodup h.1]
  congr 1
  ext x
  simp only [List.mem_toFinset]
  rw [h.2 x]
  simp

/-! ## Lemmas on the parsers -/

theorem parseSpan_valid (B : Nat) (range : JSString) (tok : RangeToken)
    (h : parseSpan B range = .ok tok) : tok.Valid B := by
  unfold parseSpan at h
  split at h
  · split_ifs at h with h1 h2
    cases h
    simp only [RangeToken.Valid]
    omega
  · cases h

theorem parseSingle_valid (B : Nat) (range : JSString) (tok : RangeToken)
    (h : parseSingle B range = .ok tok) : tok.Valid B := by
  unfold parseSingle at h
  split at h
  · split_ifs at h with h1 h2
    cases h
    simp only [RangeToken.Valid]
    omega
  · cases h

theorem parseRangeTerm_valid (B : Nat) (range : JSString) (tok : RangeToken)
    (h : parseRangeTerm B range = .ok tok) : tok.Valid B := by
  unfold parseRangeTerm at h
  split_ifs at h
  · exact parseSpan_valid B range tok h
  · exact parseSingle_valid B range tok h

theorem parseRangesLoop_ok (B : Nat) (terms : List JSString) (parsed result : List RangeToken)
    (h : parseRangesLoop B terms parsed = .ok result) :
    ∃ toks, result = parsed ++ toks ∧
      List.Forall₂ (fun t tok => parseRangeTerm B t = .ok tok) terms toks := by
  induction terms generalizing parsed with
  | nil =>
    simp only [parseRangesLoop] at h
    cases h
    exact ⟨[], by simp, List.Forall₂.nil⟩
  | cons t ts ih =>
    simp only [parseRangesLoop] at h
    split at h
    · cases h
    · rename_i tok htok
      obtain ⟨toks, hres, hall⟩ := ih _ h
      exact ⟨tok :: toks, by simp [hres], List.Forall₂.cons htok hall⟩

theorem parseRangesLoop_of_forall₂ (B : Nat) (terms : List JSString)
    (parsed toks : List RangeToken)
    (h : List.Forall₂ (fun t tok => parseRangeTerm B t = .ok tok) terms toks) :
    parseRangesLoop B terms parsed = .ok (parsed ++ toks) := by
  induction h generalizing parsed with
  | nil => simp [parseRangesLoop]
  | cons hhead _ ih =>
    simp only [parseRangesLoop, hhead]
    rw [ih]
    simp

theorem forall₂_valid (B : Nat) (terms : List JSString) (toks : List RangeToken)
    (h : List.Forall₂ (fun t tok => parseRangeTerm B t = .ok tok) terms toks) :
    ∀ t ∈ toks, t.Valid B := by
  induction h with
  | nil => simp
  | cons hhead _ ih =>
    intro t ht
    rcases List.mem_cons.1 ht with rfl | ht
    · exact parseRangeTerm_valid B _ _ hhead
    · exact ih t ht

theorem parseRanges_valid (B : Nat) (rangeString : JSString) (ranges : List RangeToken)
    (h : parseRanges B rangeString = .ok ranges) : ∀ t ∈ ranges, t.Valid B := by
  unfold parseRanges at h
  split_ifs at h
  · cases h
    simp
  · obtain ⟨toks, hres, hall⟩ := parseRangesLoop_ok B _ _ _ h
    subst hres
    simpa using forall₂_valid B _ _ hall

theorem calculateFrameSelection_ok (B : Nat) (total rangeText specificText : JSString)
    (ranges : List RangeToken) (specific : List Int)
    (hr : parseRanges B rangeText = .ok ranges)
    (hs : parseSpecificFrames B specificText = .ok specific) :
    calculateFrameSelection B total rangeText specificText =
      .ok { rangeFrameCount := (expandRanges ranges).1
            specificFrameCount := specific.length
            totalSelectedFrames := (newSet ((expandRanges ranges).2 ++ specific)).length
            duplicateCount :=
              (((expandRanges ranges).2.length : Int) + (specific.length : Int)) -
                ((newSet ((expandRanges ranges).2 ++ specific)).length : Int)
            extraFramesNeeded :=
              mathMaxZero ((parseInt total).map
                (fun r => r - ((newSet ((expandRanges ranges).2 ++ specific)).length : Int)))
            totalRequested := parseInt total
            isValid :=
              leNumber ((newSet ((expandRanges ranges).2 ++ specific)).length : Int)
                (parseInt total) } := by
  simp only [calculateFrameSelection, hr, hs]

/-! ## Reconciliation engine: the summary -/

/-- The worked example of the summary: ranges `1-5`, specific frames `3,4,10`,
bound 20, requested total 8. -/
theorem calculateFrameSelection_example :
    calculateFrameSelection 20 "8".toList "1-5".toList "3,4,10".toList =
      .ok { rangeFrameCount := 5, specificFrameCount := 3, totalSelectedFrames := 6,
            duplicateCount := 2, extraFramesNeeded := some 2, totalRequested := some 8,
            isValid := true } := by
  rfl

/-- C1. Whenever the range text and the specific-frame text both parse,
`calculateFrameSelection` returns a summary whose `totalSelectedFrames` is the
number of distinct frames in the set union of the expansion of every parsed
range token (all of `start..end` for a span, the one frame for a single) and
the parsed specific frames. -/
theorem totalSelectedFrames_eq_card_union (B : Nat) (total rangeText specificText : JSString)
    (ranges : List RangeToken) (specific : List Int)
    (hr : parseRanges B rangeText = .ok ranges)
    (hs : parseSpecificFrames B specificText = .ok specific) :
    ∃ s, calculateFrameSelection B total rangeText specificText = .ok s ∧
      s.totalSelectedFrames = (selectionUnion ranges specific).card := by
  refine ⟨_, calculateFrameSelection_ok B total rangeText specificText ranges specific hr hs, ?_⟩
  simp only [length_newSet, expandRanges_eq, List.toFinset_append, toFinset_expandAll,
    selectionUnion]

/-- Witness of C1: ranges `1-5` and specific frames `3,4,10` under bound 20
give the union `{1,2,3,4,5,10}` and `totalSelectedFrames = 6`. -/
theorem totalSelectedFrames_eq_card_union_witness :
    parseRanges 20 "1-5".toList = .ok [.range 1 5] ∧
    parseSpecificFrames 20 "3,4,10".toList = .ok [3, 4, 10] ∧
    selectionUnion [.range 1 5] [3, 4, 10] = {1, 2, 3, 4, 5, 10} ∧
    (selectionUnion [.range 1 5] [3, 4, 10]).card = 6 ∧
    ∃ s, calculateFrameSelection 20 "8".toList "1-5".toList "3,4,10".toList = .ok s ∧
      s.totalSelectedFrames = (selectionUnion [.range 1 5] [3, 4, 10]).card :=
  ⟨rfl, rfl, by decide, by decide,
    totalSelectedFrames_eq_card_union 20 "8".toList "1-5".toList "3,4,10".toList
      [.range 1 5] [3, 4, 10] rfl rfl⟩

/-- C2. For every successfully parsed input, `rangeFrameCount` is the sum over
the parsed range tokens of `end - start + 1` for a span and `1` for a single
(overlapping and repeated terms counted in full), and `specificFrameCount` is
the length of the parsed specific-frame sequence. -/
theorem rangeFrameCount_eq_sum (B : Nat) (total rangeText specificText : JSString)
    (ranges : List RangeToken) (specific : List Int)
    (hr : parseRanges B rangeText = .ok ranges)
    (hs : parseSpecificFrames B specificText = .ok specific) :
    ∃ s, calculateFrameSelection B total rangeText specificText = .ok s ∧
      s.rangeFrameCount = (ranges.map tokenCount).sum ∧
      s.specificFrameCount = specific.length := by
  refine ⟨_, calculateFrameSelection_ok B total rangeText specificText ranges specific hr hs,
    ?_, rfl⟩
  simp only [expandRanges_eq]

/-- Witness of C2: the overlapping ranges `1-5,3-7` count 10 frames, and the
specific frames `3,3,4` count 3. -/
theorem rangeFrameCount_eq_sum_witness :
    parseRanges 20 "1-5,3-7".toList = .ok [.range 1 5, .range 3 7] ∧
    parseSpecificFrames 20 "3,3,4".toList = .ok [3, 3, 4] ∧
    ([RangeToken.range 1 5, RangeToken.range 3 7].map tokenCount).sum = 10 ∧
    ∃ s, calculateFrameSelection 20 "8".toList "1-5,3-7".toList "3,3,4".toList = .ok s ∧
      s.rangeFrameCount = ([RangeToken.range 1 5, RangeToken.range 3 7].map tokenCount).sum ∧
      s.specificFrameCount = [(3 : Int), 3, 4].length :=
  ⟨rfl, rfl, by decide,
    rangeFrameCount_eq_sum 20 "8".toList "1-5,3-7".toList "3,3,4".toList
      [.range 1 5, .range 3 7] [3, 3, 4] rfl rfl⟩

/-- C3. For every successfully parsed input the returned summary satisfies
`duplicateCount = (rangeFrameCount + specificFrameCount) - totalSelectedFrames`
on its own fields: the length of the expanded range-frame list, from which the
code computes `duplicateCount`, agrees with `rangeFrameCount`. -/
theorem duplicateCount_eq (B : Nat) (total rangeText specificText : JSString)
    (ranges : List RangeToken) (specific : List Int)
    (hr : parseRanges B rangeText = .ok ranges)
    (hs : parseSpecificFrames B specificText = .ok specific) :
    ∃ s, calculateFrameSelection B total rangeText specificText = .ok s ∧
      s.duplicateCount =
        (s.rangeFrameCount + (s.specificFrameCount : Int)) - (s.totalSelectedFrames : Int) := by
  refine ⟨_, calculateFrameSelection_ok B total rangeText specificText ranges specific hr hs, ?_⟩
  simp only [expandRanges_eq]
  rw [length_expandAll B ranges (parseRanges_valid B rangeText ranges hr)]

/-- Witness of C3: ranges `1-5`, specific frames `3,4,10`, bound 20. -/
theorem duplicateCount_eq_witness :
    parseRanges 20 "1-5".toList = .ok [.range 1 5] ∧
    parseSpecificFrames 20 "3,4,10".toList = .ok [3, 4, 10] ∧
    ∃ s, calculateFrameSelection 20 "8".toList "1-5".toList "3,4,10".toList = .ok s ∧
      s.duplicateCount =
        (s.rangeFrameCount + (s.specificFrameCount : Int)) - (s.totalSelectedFrames : Int) :=
  ⟨rfl, rfl,
    duplicateCount_eq 20 "8".toList "1-5".toList "3,4,10".toList [.range 1 5] [3, 4, 10]
      rfl rfl⟩

/-- C4. For every successfully parsed input and every requested-total text
that `parseInt` reads as the integer `R`, with `S = totalSelectedFrames`: the
summary has `totalRequested = R`, `extraFramesNeeded = max 0 (R - S)` and
`isValid` exactly when `S ≤ R`; so `S ≤ R` gives `extraFramesNeeded = R - S`
with `isValid = true`, and `S > R` gives `extraFramesNeeded = 0` with
`isValid = false`. -/
theorem extraFramesNeeded_isValid (B : Nat) (total rangeText specificText : JSString)
    (ranges : List RangeToken) (specific : List Int) (R : Int)
    (hr : parseRanges B rangeText = .ok ranges)
    (hs : parseSpecificFrames B specificText = .ok specific)
    (hR : parseInt total = some R) :
    ∃ s, calculateFrameSelection B total rangeText specificText = .ok s ∧
      s.totalRequested = some R ∧
      s.extraFramesNeeded = some (max 0 (R - (s.totalSelectedFrames : Int))) ∧
      (s.isValid = true ↔ (s.totalSelectedFrames : Int) ≤ R) ∧
      ((s.totalSelectedFrames : Int) ≤ R →
        s.isValid = true ∧ s.extraFramesNeeded = some (R - (s.totalSelectedFrames : Int))) ∧
      ((s.totalSelectedFrames : Int) > R →
        s.isValid = false ∧ s.extraFramesNeeded = some 0) := by
  refine ⟨_, calculateFrameSelection_ok B total rangeText specificText ranges specific hr hs, ?_⟩
  simp only [hR, Option.map_some', mathMaxZero, leNumber, decide_eq_true_eq, true_and,
    Option.some.injEq, decide_eq_false_iff_not]
  refine ⟨fun h => ?_, fun h => ?_⟩
  · exact ⟨h, max_eq_right (by omega)⟩
  · exact ⟨by omega, max_eq_left (by omega)⟩

/-- Witness of C4: a requested total of 3 against the ten frames of `1-10`. -/
theorem extraFramesNeeded_isValid_witness :
    parseRanges 200 "1-10".toList = .ok [.range 1 10] ∧
    parseSpecificFrames 200 [] = .ok [] ∧
    parseInt "3".toList = some 3 ∧
    ∃ s, calculateFrameSelection 200 "3".toList "1-10".toList [] = .ok s ∧
      s.totalRequested = some 3 ∧
      s.extraFramesNeeded = some (max 0 (3 - (s.totalSelectedFrames : Int))) ∧
      (s.isValid = true ↔ (s.totalSelectedFrames : Int) ≤ 3) ∧
      ((s.totalSelectedFrames : Int) ≤ 3 →
        s.isValid = true ∧ s.extraFramesNeeded = some (3 - (s.totalSelectedFrames : Int))) ∧
      ((s.totalSelectedFrames : Int) > 3 →
        s.isValid = false ∧ s.extraFramesNeeded = some 0) :=
  ⟨rfl, rfl, rfl,
    extraFramesNeeded_isValid 200 "3".toList "1-10".toList [] [.range 1 10] [] 3 rfl rfl rfl⟩

/-- The two worked examples of C4: empty inputs with a requested total of 50
under bound 200, and a requested total of 3 against a union of size 10. -/
theorem extraFramesNeeded_examples :
    calculateFrameSelection 200 "50".toList [] [] =
      .ok { rangeFrameCount := 0, specificFrameCount := 0, totalSelectedFrames := 0,
            duplicateCount := 0, extraFramesNeeded := some 50, totalRequested := some 50,
            isValid := true } ∧
    calculateFrameSelection 200 "3".toList "1-10".toList [] =
      .ok { rangeFrameCount := 10, specificFrameCount := 0, totalSelectedFrames := 10,
            duplicateCount := 0, extraFramesNeeded := some 0, totalRequested := some 3,
            isValid := false } :=
  ⟨rfl, rfl⟩

/-! ## Lemmas on the rounding to a double -/

theorem two_pow_53 : (2 : Nat) ^ 53 = 9007199254740992 := by norm_num

theorem two_pow_52 : (2 : Nat) ^ 52 = 4503599627370496 := by norm_num

theorem toDouble_of_le (n : Nat) (h : n ≤ 2 ^ 53) : toDouble n = n := by
  unfold toDouble
  rw [if_pos h]

theorem droppedBits_of_lt (fuel n : Nat) (h : n < 2 ^ 53) : droppedBits fuel n = 0 := by
  cases fuel with
  | zero => rfl
  | succ fuel =>
    unfold droppedBits
    rw [if_pos h]

theorem droppedBits_spec (fuel n : Nat) (hfuel : n < 2 ^ 53 * 2 ^ fuel) (hn : 2 ^ 53 ≤ n) :
    1 ≤ droppedBits fuel n ∧ 2 ^ 52 * 2 ^ droppedBits fuel n ≤ n ∧
      n < 2 ^ 53 * 2 ^ droppedBits fuel n := by
  induction fuel generalizing n with
  | zero =>
    simp only [pow_zero, mul_one] at hfuel
    omega
  | succ fuel ih =>
    have hnot : ¬ n < 2 ^ 53 := Nat.not_lt.2 hn
    simp only [droppedBits, if_neg hnot]
    rw [pow_succ 2 fuel] at hfuel
    by_cases hm : n / 2 < 2 ^ 53
    · rw [droppedBits_of_lt fuel _ hm]
      rw [two_pow_53] at hm hn
      rw [two_pow_52, two_pow_53]
      refine ⟨Nat.le_refl 1, ?_, ?_⟩ <;> simp only [zero_add, pow_one] <;> omega
    · have hfuel2 : n / 2 < 2 ^ 53 * 2 ^ fuel := by
        generalize 2 ^ fuel = F at hfuel ⊢
        rw [two_pow_53] at hfuel ⊢
        omega
      obtain ⟨h1, h2, h3⟩ := ih (n / 2) hfuel2 (Nat.not_lt.1 hm)
      refine ⟨by omega, ?_, ?_⟩
      · rw [pow_succ 2 (droppedBits fuel (n / 2))]
        generalize 2 ^ droppedBits fuel (n / 2) = T at h2 h3 ⊢
        rw [two_pow_52] at h2 ⊢
        omega
      · rw [pow_succ 2 (droppedBits fuel (n / 2))]
        generalize 2 ^ droppedBits fuel (n / 2) = T at h2 h3 ⊢
        rw [two_pow_53] at h3 ⊢
        omega

theorem droppedBits_self (n : Nat) (hn : 2 ^ 53 ≤ n) :
    1 ≤ droppedBits n n ∧ 2 ^ 52 * 2 ^ droppedBits n n ≤ n ∧
      n < 2 ^ 53 * 2 ^ droppedBits n n := by
  apply droppedBits_spec n n _ hn
  have h1 : n < 2 ^ n := Nat.lt_two_pow n
  have h2 : 2 ^ n ≤ 2 ^ 53 * 2 ^ n := Nat.le_mul_of_pos_left _ (by positivity)
  omega

theorem roundAt_ge (e n : Nat) : n / 2 ^ e * 2 ^ e ≤ roundAt e n := by
  unfold roundAt
  split_ifs
  · exact Nat.mul_le_mul_right _ (Nat.le_succ _)
  · exact Nat.le_refl _

theorem roundAt_le (e n : Nat) : roundAt e n ≤ (n / 2 ^ e + 1) * 2 ^ e := by
  unfold roundAt
  split_ifs
  · exact Nat.le_refl _
  · exact Nat.mul_le_mul_right _ (Nat.le_succ _)

theorem roundAt_bounds (e n : Nat) (hlo : 2 ^ 52 * 2 ^ e ≤ n) (hhi : n < 2 ^ 53 * 2 ^ e) :
    2 ^ 52 * 2 ^ e ≤ roundAt e n ∧ roundAt e n ≤ 2 ^ 53 * 2 ^ e := by
  have hT : 0 < 2 ^ e := by positivity
  have hq1 : 2 ^ 52 ≤ n / 2 ^ e := (Nat.le_div_iff_mul_le hT).2 hlo
  have hq2 : n / 2 ^ e < 2 ^ 53 := (Nat.div_lt_iff_lt_mul hT).2 hhi
  constructor
  · exact le_trans (Nat.mul_le_mul_right _ hq1) (roundAt_ge e n)
  · exact le_trans (roundAt_le e n) (Nat.mul_le_mul_right _ hq2)

theorem roundAt_mono (e a b : Nat) (h : a ≤ b) : roundAt e a ≤ roundAt e b := by
  have hq : a / 2 ^ e ≤ b / 2 ^ e := Nat.div_le_div_right h
  rcases Nat.eq_or_lt_of_le hq with heq | hlt
  · have ha := Nat.div_add_mod a (2 ^ e)
    have hb := Nat.div_add_mod b (2 ^ e)
    rw [← heq] at hb
    have hr : a % 2 ^ e ≤ b % 2 ^ e := by omega
    unfold roundAt
    rw [← heq]
    apply Nat.mul_le_mul_right
    split_ifs with h1 h2 h2
    · exact Nat.le_refl _
    · exfalso
      apply h2
      rcases h1 with h1 | ⟨h1, hodd⟩
      · exact Or.inl (by omega)
      · rcases Nat.eq_or_lt_of_le hr with hreq | hrlt
        · exact Or.inr ⟨by omega, hodd⟩
        · exact Or.inl (by omega)
    · exact Nat.le_succ _
    · exact Nat.le_refl _
  · exact le_trans (roundAt_le e a)
      (le_trans (Nat.mul_le_mul_right _ hlt) (roundAt_ge e b))

theorem toDouble_ge (n : Nat) (h : 2 ^ 53 < n) : 2 ^ 53 ≤ toDouble n := by
  obtain ⟨h1, h2, h3⟩ := droppedBits_self n (Nat.le_of_lt h)
  have hb := (roundAt_bounds _ n h2 h3).1
  have hpow : 2 ^ 53 ≤ 2 ^ 52 * 2 ^ droppedBits n n := by
    have : (2 : Nat) ^ 1 ≤ 2 ^ droppedBits n n := Nat.pow_le_pow_right (by decide) h1
    calc 2 ^ 53 = 2 ^ 52 * 2 ^ 1 := by norm_num
      _ ≤ 2 ^ 52 * 2 ^ droppedBits n n := Nat.mul_le_mul_left _ this
  simp only [toDouble, if_neg (Nat.not_le.2 h)]
  split_ifs with hinf
  · decide
  · exact le_trans hpow hb

theorem toDouble_mono (a b : Nat) (h : a ≤ b) : toDouble a ≤ toDouble b := by
  by_cases ha : a ≤ 2 ^ 53
  · rw [toDouble_of_le a ha]
    by_cases hb : b ≤ 2 ^ 53
    · rw [toDouble_of_le b hb]
      exact h
    · exact le_trans ha (toDouble_ge b (Nat.not_le.1 hb))
  · have ha2 : 2 ^ 53 < a := Nat.not_le.1 ha
    have hb2 : 2 ^ 53 < b := lt_of_lt_of_le ha2 h
    obtain ⟨_, a2, a3⟩ := droppedBits_self a (Nat.le_of_lt ha2)
    obtain ⟨_, b2, b3⟩ := droppedBits_self b (Nat.le_of_lt hb2)
    have hround : roundAt (droppedBits a a) a ≤ roundAt (droppedBits b b) b := by
      have hlt : 2 ^ droppedBits a a < 2 ^ (droppedBits b b + 1) := by
        have h4 : 2 ^ 52 * 2 ^ droppedBits a a < 2 ^ 53 * 2 ^ droppedBits b b :=
          lt_of_le_of_lt (le_trans a2 h) b3
        rw [pow_succ 2 (droppedBits b b)]
        generalize 2 ^ droppedBits a a = X at h4 ⊢
        generalize 2 ^ droppedBits b b = Y at h4 ⊢
        rw [two_pow_52, two_pow_53] at h4
        omega
      have hle : droppedBits a a ≤ droppedBits b b :=
        Nat.lt_succ_iff.1 ((Nat.pow_lt_pow_iff_right (by decide)).1 hlt)
      rcases Nat.eq_or_lt_of_le hle with heq | hlt2
      · rw [← heq]
        exact roundAt_mono _ a b h
      · have hp : 2 ^ (droppedBits a a + 1) ≤ 2 ^ droppedBits b b :=
          Nat.pow_le_pow_right (by decide) hlt2
        have hmid : 2 ^ 53 * 2 ^ droppedBits a a ≤ 2 ^ 52 * 2 ^ droppedBits b b := by
          rw [pow_succ 2 (droppedBits a a)] at hp
          generalize 2 ^ droppedBits a a = X at hp ⊢
          generalize 2 ^ droppedBits b b = Y at hp ⊢
          rw [two_pow_52, two_pow_53]
          omega
        exact le_trans (roundAt_bounds _ a a2 a3).2
          (le_trans hmid (roundAt_bounds _ b b2 b3).1)
    simp only [toDouble, if_neg ha, if_neg (Nat.not_le.2 hb2)]
    split_ifs with h1 h2 h2
    · exact Nat.le_refl _
    · exact absurd (le_trans h1 hround) h2
    · exact Nat.le_of_lt (Nat.not_le.1 h1)
    · exact hround

theorem toDouble_pos (n : Nat) (h : 1 ≤ n) : 1 ≤ toDouble n := by
  have := toDouble_mono 1 n h
  rwa [toDouble_of_le 1 (by norm_num)] at this

/-- Rounding keeps a number above every bound below `2^53` that it exceeds. -/
theorem lt_toDouble (B n : Nat) (hB : B < 2 ^ 53) (h : B < n) : B < toDouble n := by
  by_cases hn : n ≤ 2 ^ 53
  · rwa [toDouble_of_le n hn]
  · exact lt_of_lt_of_le hB (toDouble_ge n (Nat.not_le.1 hn))

/-! ## Lemmas on the string primitives -/

theorem digitChar_isDecDigit (d : Nat) (h : d < 10) :
    IsDecDigit (Nat.digitChar d) ∧ (Nat.digitChar d).toNat - 48 = d := by
  unfold IsDecDigit
  interval_cases d <;> exact ⟨⟨by decide, by decide⟩, by decide⟩

theorem IsDecDigit.not_whiteSpace {c : Char} (h : IsDecDigit c) : isWhiteSpace c = false := by
  unfold IsDecDigit at h
  simp only [isWhiteSpace, Bool.or_eq_false_iff, beq_eq_false_iff_ne, ne_eq,
    Bool.and_eq_false_imp, decide_eq_true_eq, decide_eq_false_iff_not]
  omega

theorem IsDecDigit.radixDigit {c : Char} (h : IsDecDigit c) :
    radixDigit 10 c = some (c.toNat - 48) := by
  unfold IsDecDigit at h
  have h2 : c.toNat - 48 < 10 := by omega
  simp [Frames.radixDigit, digitValue, h.1, h.2, h2]

theorem decValue_append_singleton (s : JSString) (c : Char) :
    decValue (s ++ [c]) = decValue s * 10 + (c.toNat - 48) := by
  simp [decValue, List.foldl_append]

theorem toDigitsCore_spec (fuel n : Nat) (ds : List Char) (h : n < fuel) :
    ∃ pre, Nat.toDigitsCore 10 fuel n ds = pre ++ ds ∧ pre ≠ [] ∧
      (∀ c ∈ pre, IsDecDigit c) ∧ decValue pre = n := by
  induction fuel generalizing n ds with
  | zero => omega
  | succ fuel ih =>
    have hd := digitChar_isDecDigit (n % 10) (Nat.mod_lt _ (by decide))
    simp only [Nat.toDigitsCore]
    by_cases h0 : n / 10 = 0
    · rw [if_pos h0]
      refine ⟨[Nat.digitChar (n % 10)], rfl, by simp, ?_, ?_⟩
      · intro c hc
        rw [List.mem_singleton] at hc
        exact hc ▸ hd.1
      · simp only [decValue, List.foldl_cons, List.foldl_nil, hd.2]
        omega
    · rw [if_neg h0]
      obtain ⟨pre, hpre, _, hall, hval⟩ :=
        ih (n / 10) (Nat.digitChar (n % 10) :: ds) (by omega)
      refine ⟨pre ++ [Nat.digitChar (n % 10)], by simp [hpre], by simp, ?_, ?_⟩
      · intro c hc
        rcases List.mem_append.1 hc with hc | hc
        · exact hall c hc
        · rw [List.mem_singleton] at hc
          exact hc ▸ hd.1
      · rw [decValue_append_singleton, hval, hd.2]
        omega

theorem natToString_spec (n : Nat) :
    natToString n ≠ [] ∧ (∀ c ∈ natToString n, IsDecDigit c) ∧ decValue (natToString n) = n := by
  obtain ⟨pre, hpre, hne, hall, hval⟩ := toDigitsCore_spec (n + 1) n [] (Nat.lt_succ_self n)
  have : natToString n = pre := by
    simp [natToString, Nat.toDigits, hpre]
  rw [this]
  exact ⟨hne, hall, hval⟩

theorem digitsPrefix_of_digits (s : JSString) (h : ∀ c ∈ s, IsDecDigit c) :
    digitsPrefix 10 s = s.map (fun c => c.toNat - 48) := by
  induction s with
  | nil => rfl
  | cons c cs ih =>
    have hc := h c (List.mem_cons_self _ _)
    simp only [digitsPrefix, hc.radixDigit, List.map_cons]
    rw [ih (fun d hd => h d (List.mem_cons_of_mem _ hd))]

theorem digitsValue_map (s : JSString) :
    digitsValue 10 (s.map (fun c => c.toNat - 48)) = decValue s := by
  simp [digitsValue, decValue, List.foldl_map]

theorem trimStart_of_digits (s : JSString) (h : ∀ c ∈ s, IsDecDigit c) : trimStart s = s := by
  cases s with
  | nil => rfl
  | cons c cs =>
    simp [trimStart, List.dropWhile, (h c (List.mem_cons_self _ _)).not_whiteSpace]

theorem splitSign_of_digits (s : JSString) (h : ∀ c ∈ s, IsDecDigit c) : splitSign s = (1, s) := by
  unfold splitSign
  split
  · exact absurd (h '-' (List.mem_cons_self _ _)) (by decide)
  · exact absurd (h '+' (List.mem_cons_self _ _)) (by decide)
  · rfl

theorem splitRadix_of_digits (s : JSString) (h : ∀ c ∈ s, IsDecDigit c) :
    splitRadix s = (10, s) := by
  unfold splitRadix
  split
  · exact absurd (h 'x' (by simp)) (by decide)
  · exact absurd (h 'X' (by simp)) (by decide)
  · rfl

/-- `parseInt` reads the decimal numeral of a natural number as the double
nearest to it. -/
theorem parseInt_natToString (n : Nat) :
    parseInt (natToString n) = some (toDouble n : Int) := by
  obtain ⟨hne, hall, hval⟩ := natToString_spec n
  have hmap : (natToString n).map (fun c => c.toNat - 48) ≠ [] := by
    simpa using hne
  simp only [parseInt, trimStart_of_digits _ hall, splitSign_of_digits _ hall,
    splitRadix_of_digits _ hall, digitsPrefix_of_digits _ hall, digitsValue_map, hval,
    if_neg hmap, one_mul]

/-- A number up to `2^53` is printed with all its digits. -/
theorem numberToString_natCast (n : Nat) (h : n ≤ 2 ^ 53) :
    numberToString (n : Int) = natToString n := by
  show natNumberToString n = natToString n
  unfold natNumberToString
  rw [if_pos h]

theorem dropWhile_eq_self {p : Char → Bool} (s : JSString) (h : ∀ c ∈ s, p c = false) :
    s.dropWhile p = s := by
  cases s with
  | nil => rfl
  | cons c cs => simp [List.dropWhile, h c (List.mem_cons_self _ _)]

theorem dropWhile_eq_nil {p : Char → Bool} (s : JSString) (h : ∀ c ∈ s, p c = true) :
    s.dropWhile p = [] := by
  induction s with
  | nil => rfl
  | cons c cs ih =>
    simp only [List.dropWhile, h c (List.mem_cons_self _ _)]
    exact ih (fun d hd => h d (List.mem_cons_of_mem _ hd))

/-- A text without white space is its own trimmed form. -/
theorem trim_eq_self (s : JSString) (h : ∀ c ∈ s, isWhiteSpace c = false) : trim s = s := by
  unfold trim trimEnd trimStart
  rw [dropWhile_eq_self s h, dropWhile_eq_self s.reverse (fun c hc => h c (List.mem_reverse.1 hc)),
    List.reverse_reverse]

/-- A text made of white space only trims to the empty text. -/
theorem trim_eq_nil (s : JSString) (h : ∀ c ∈ s, isWhiteSpace c = true) : trim s = [] := by
  unfold trim trimEnd trimStart
  rw [dropWhile_eq_nil s h]
  rfl

/-- A text that starts with a character that is not white space does not trim
to the empty text. -/
theorem trim_cons_ne_nil (c : Char) (s : JSString) (h : isWhiteSpace c = false) :
    trim (c :: s) ≠ [] := by
  unfold trim trimEnd trimStart
  simp only [List.dropWhile, h]
  intro hnil
  have h2 := congrArg List.reverse hnil
  simp only [List.reverse_reverse, List.reverse_nil] at h2
  have hmem : c ∈ (c :: s).reverse := by simp
  rw [List.dropWhile_eq_nil_iff] at h2
  have := h2 c hmem
  rw [h] at this
  exact Bool.noConfusion this

theorem split_of_not_mem (sep : Char) (s : JSString) (h : sep ∉ s) : split sep s = [s] := by
  induction s with
  | nil => rfl
  | cons c cs ih =>
    have hc : c ≠ sep := fun hcs => h (hcs ▸ List.mem_cons_self _ _)
    have hcs : sep ∉ cs := fun hm => h (List.mem_cons_of_mem _ hm)
    simp [split, hc, ih hcs]

theorem split_append_sep (sep : Char) (a b : JSString) (h : sep ∉ a) :
    split sep (a ++ sep :: b) = a :: split sep b := by
  induction a with
  | nil => simp [split]
  | cons c cs ih =>
    have hc : c ≠ sep := fun hcs => h (hcs ▸ List.mem_cons_self _ _)
    have hcs : sep ∉ cs := fun hm => h (List.mem_cons_of_mem _ hm)
    simp [split, hc, ih hcs]

theorem not_mem_natToString (n : Nat) (c : Char) (hc : ¬ IsDecDigit c) : c ∉ natToString n :=
  fun hm => hc ((natToString_spec n).2.1 c hm)

theorem natToString_not_whiteSpace (n : Nat) : ∀ c ∈ natToString n, isWhiteSpace c = false :=
  fun c hc => ((natToString_spec n).2.1 c hc).not_whiteSpace

theorem spanText_not_whiteSpace (a b : Nat) : ∀ c ∈ spanText a b, isWhiteSpace c = false := by
  intro c hc
  unfold spanText at hc
  rcases List.mem_append.1 hc with h | h
  · exact natToString_not_whiteSpace a c h
  · rcases List.mem_cons.1 h with rfl | h
    · decide
    · exact natToString_not_whiteSpace b c h

theorem spanText_ne_nil (a b : Nat) : spanText a b ≠ [] := by
  unfold spanText
  simp

theorem comma_not_mem_spanText (a b : Nat) : ',' ∉ spanText a b := by
  intro hc
  unfold spanText at hc
  rcases List.mem_append.1 hc with h | h
  · exact not_mem_natToString a ',' (by decide) h
  · rcases List.mem_cons.1 h with h | h
    · exact absurd h (by decide)
    · exact not_mem_natToString b ',' (by decide) h

theorem includes_spanText (a b : Nat) : includes (spanText a b) '-' = true := by
  simp [includes, spanText]

theorem split_spanText (a b : Nat) :
    (split '-' (spanText a b)).map (fun n => parseInt (trim n)) =
      [some (toDouble a : Int), some (toDouble b : Int)] := by
  unfold spanText
  rw [split_append_sep '-' _ _ (not_mem_natToString a '-' (by decide)),
    split_of_not_mem '-' _ (not_mem_natToString b '-' (by decide))]
  simp only [List.map_cons, List.map_nil, trim_eq_self _ (natToString_not_whiteSpace a),
    trim_eq_self _ (natToString_not_whiteSpace b), parseInt_natToString]

/-- The span branch on the text `a-b`: what the three checks of the source
decide, on the two endpoints as `parseInt` reads them. -/
theorem parseSpan_spanText (B a b : Nat) :
    parseSpan B (spanText a b) =
      if toDouble a = 0 ∨ toDouble b = 0 ∨ toDouble b < toDouble a then
        .error (invalidRangeFormat (spanText a b))
      else if B < toDouble a ∨ B < toDouble b then .error (rangeOutOfBounds B (spanText a b))
      else .ok (.range (toDouble a) (toDouble b)) := by
  unfold parseSpan
  rw [split_spanText]
  simp only [Nat.cast_nonpos, gt_iff_lt, Nat.cast_lt]

theorem parseRangeTerm_spanText (B a b : Nat) :
    parseRangeTerm B (spanText a b) =
      if toDouble a = 0 ∨ toDouble b = 0 ∨ toDouble b < toDouble a then
        .error (invalidRangeFormat (spanText a b))
      else if B < toDouble a ∨ B < toDouble b then .error (rangeOutOfBounds B (spanText a b))
      else .ok (.range (toDouble a) (toDouble b)) := by
  unfold parseRangeTerm
  rw [includes_spanText, if_pos rfl, parseSpan_spanText]

theorem parseSingle_natToString (B f : Nat) :
    parseSingle B (natToString f) =
      if toDouble f = 0 then .error (invalidFrameNumber (natToString f))
      else if B < toDouble f then .error (frameOutOfBounds B (toDouble f))
      else .ok (.single (toDouble f)) := by
  unfold parseSingle
  rw [parseInt_natToString]
  simp only [Nat.cast_nonpos, gt_iff_lt, Nat.cast_lt]

theorem parseRangeTerm_natToString (B f : Nat) :
    parseRangeTerm B (natToString f) =
      if toDouble f = 0 then .error (invalidFrameNumber (natToString f))
      else if B < toDouble f then .error (frameOutOfBounds B (toDouble f))
      else .ok (.single (toDouble f)) := by
  unfold parseRangeTerm
  have h : includes (natToString f) '-' = false := by
    simpa [includes] using not_mem_natToString f '-' (by decide)
  rw [h]
  simpa using parseSingle_natToString B f

theorem parseSpecificTerm_natToString (B f : Nat) :
    parseSpecificTerm B (natToString f) =
      if toDouble f = 0 then .error (invalidFrameNumber (natToString f))
      else if B < toDouble f then .error (frameOutOfBounds B (toDouble f))
      else .ok (toDouble f : Int) := by
  unfold parseSpecificTerm
  rw [trim_eq_self _ (natToString_not_whiteSpace f), parseInt_natToString]
  simp only [Nat.cast_nonpos, gt_iff_lt, Nat.cast_lt]

/-- A text without a comma that is not blank is parsed as its one trimmed
term. -/
theorem parseRanges_single_term (B : Nat) (s : JSString) (hc : ',' ∉ s)
    (hw : ∀ c ∈ s, isWhiteSpace c = false) (hne : s ≠ []) :
    parseRanges B s = (parseRangeTerm B s).map (fun tok => [tok]) := by
  unfold parseRanges
  rw [trim_eq_self s hw, if_neg hne, split_of_not_mem ',' s hc]
  simp only [List.map_cons, List.map_nil, trim_eq_self s hw, parseRangesLoop]
  cases parseRangeTerm B s <;> rfl

theorem parseSpecificFrames_single_term (B : Nat) (s : JSString) (hc : ',' ∉ s)
    (hw : ∀ c ∈ s, isWhiteSpace c = false) (hne : s ≠ []) :
    parseSpecificFrames B s = (parseSpecificTerm B s).map (fun n => [n]) := by
  unfold parseSpecificFrames
  rw [trim_eq_self s hw, if_neg hne, split_of_not_mem ',' s hc]
  simp only [parseSpecificLoop]
  cases parseSpecificTerm B s <;> rfl

theorem parseRangesLoop_error (B : Nat) (pre : List JSString) (t : JSString)
    (post : List JSString) (parsed : List RangeToken) (e : JSString)
    (hpre : ∀ u ∈ pre, ∃ tok, parseRangeTerm B u = .ok tok)
    (ht : parseRangeTerm B t = .error e) :
    parseRangesLoop B (pre ++ t :: post) parsed = .error e := by
  induction pre generalizing parsed with
  | nil => simp [parseRangesLoop, ht]
  | cons u us ih =>
    obtain ⟨tok, htok⟩ := hpre u (List.mem_cons_self _ _)
    simp only [List.cons_append, parseRangesLoop, htok]
    exact ih _ (fun v hv => hpre v (List.mem_cons_of_mem _ hv))

theorem parseSpecificLoop_error (B : Nat) (pre : List JSString) (t : JSString)
    (post : List JSString) (e : JSString)
    (hpre : ∀ u ∈ pre, ∃ n, parseSpecificTerm B u = .ok n)
    (ht : parseSpecificTerm B t = .error e) :
    parseSpecificLoop B (pre ++ t :: post) = .error e := by
  induction pre with
  | nil => simp [parseSpecificLoop, ht]
  | cons u us ih =>
    obtain ⟨n, hn⟩ := hpre u (List.mem_cons_self _ _)
    have hrest := ih (fun v hv => hpre v (List.mem_cons_of_mem _ hv))
    rw [List.cons_append]
    simp only [parseSpecificLoop, hn, hrest]

theorem spanText_cons (a b : Nat) :
    ∃ c s, spanText a b = c :: s ∧ isWhiteSpace c = false := by
  have hne := spanText_ne_nil a b
  cases h : spanText a b with
  | nil => exact absurd h hne
  | cons c s =>
    refine ⟨c, s, rfl, ?_⟩
    exact spanText_not_whiteSpace a b c (by rw [h]; exact List.mem_cons_self _ _)

/-! ## The parsers: claims -/

/-- C5. For every bound `B` and all `a`, `b` with
`1 ≤ a ≤ b ≤ B` and `b < 2^53`, `parseRanges` on the text `a-b` (decimal
numerals) succeeds with exactly one token, the span with `start = a` and
`end = b`; the expansion of that token by the `forEach` of
`calculateFrameSelection` is `a, a+1, ..., b`, with exactly `b - a + 1`
members. -/
theorem parseRanges_span (B a b : Nat) (ha : 1 ≤ a) (hab : a ≤ b) (hb : b ≤ B)
    (hexact : b < 2 ^ 53) :
    parseRanges B (spanText a b) = .ok [.range a b] ∧
    (expandRanges [.range a b]).2 = (List.range (b - a + 1)).map (fun k => ((a + k : Nat) : Int)) ∧
    (expandRanges [.range a b]).2.length = b - a + 1 := by
  have hexp : (expandRanges [.range a b]).2 =
      (List.range (b - a + 1)).map (fun k => ((a + k : Nat) : Int)) := by
    have hn : ((b : Int) + 1 - (a : Int)).toNat = b - a + 1 := by omega
    simp [expandRanges_eq, expandAll, tokenList, expandSpan, hn]
  have hda : toDouble a = a := toDouble_of_le a (by omega)
  have hdb : toDouble b = b := toDouble_of_le b (by omega)
  refine ⟨?_, hexp, ?_⟩
  · rw [parseRanges_single_term B _ (comma_not_mem_spanText a b) (spanText_not_whiteSpace a b)
      (spanText_ne_nil a b), parseRangeTerm_spanText, hda, hdb]
    have h1 : ¬ (a = 0 ∨ b = 0 ∨ b < a) := by omega
    have h2 : ¬ (B < a ∨ B < b) := by omega
    rw [if_neg h1, if_neg h2]
    rfl
  · rw [hexp]
    simp

/-- Witness of C5: the text `3-7` under bound 20. -/
theorem parseRanges_span_witness :
    spanText 3 7 = "3-7".toList ∧
    parseRanges 20 (spanText 3 7) = .ok [.range 3 7] ∧
    (expandRanges [.range 3 7]).2 =
      (List.range (7 - 3 + 1)).map (fun k => ((3 + k : Nat) : Int)) ∧
    (expandRanges [.range 3 7]).2.length = 7 - 3 + 1 :=
  ⟨by decide, parseRanges_span 20 3 7 (by decide) (by decide) (by decide) (by decide)⟩

/-- C5, counterexample above `2^53`: under the bound 9007199254740994 the text
`9007199254740993-9007199254740993` has `1 ≤ a ≤ b ≤ B`, and `parseRanges`
returns the span from 9007199254740992 to 9007199254740992, since `parseInt`
reads `2^53 + 1` as the double `2^53`; the token does not have `start = a`. -/
theorem parseRanges_span_counterexample :
    spanText 9007199254740993 9007199254740993 =
      "9007199254740993-9007199254740993".toList ∧
    parseRanges 9007199254740994 (spanText 9007199254740993 9007199254740993) =
      .ok [.range 9007199254740992 9007199254740992] ∧
    ¬ (parseRanges 9007199254740994 (spanText 9007199254740993 9007199254740993) =
      .ok [.range 9007199254740993 9007199254740993]) := by
  have hread : toDouble 9007199254740993 = 9007199254740992 := by decide
  have hparse : parseRanges 9007199254740994 (spanText 9007199254740993 9007199254740993) =
      .ok [.range 9007199254740992 9007199254740992] := by
    rw [parseRanges_single_term _ _ (comma_not_mem_spanText _ _) (spanText_not_whiteSpace _ _)
      (spanText_ne_nil _ _), parseRangeTerm_spanText, hread]
    rfl
  refine ⟨by decide, hparse, ?_⟩
  rw [hparse]
  intro h
  have h2 := Except.ok.inj h
  simp at h2

/-- C7. For every bound `B < 2^53`: for every `f` with
`B < f ≤ 2^53`, `parseRanges` and `parseSpecificFrames` on the numeral of `f`
both fail with the message `Frame f exceeds total frames (B)`; and for every
span text `a-b` with `1 ≤ a ≤ b` and `b > B`, `parseRanges` fails with the
message `Range a-b exceeds total frames (B)`, which is not the invalid-format
error. -/
theorem out_of_bounds_errors (B f a b : Nat) (hB : B < 2 ^ 53) (hf : B < f)
    (hexact : f ≤ 2 ^ 53) (ha : 1 ≤ a) (hab : a ≤ b) (hb : B < b) :
    parseRanges B (natToString f) =
      .error ("Frame ".toList ++ natToString f ++ " exceeds total frames (".toList ++
        natToString B ++ ")".toList) ∧
    parseSpecificFrames B (natToString f) =
      .error ("Frame ".toList ++ natToString f ++ " exceeds total frames (".toList ++
        natToString B ++ ")".toList) ∧
    parseRanges B (spanText a b) =
      .error ("Range ".toList ++ spanText a b ++ " exceeds total frames (".toList ++
        natToString B ++ ")".toList) ∧
    parseRanges B (spanText a b) ≠ .error (invalidRangeFormat (spanText a b)) := by
  have hdf : toDouble f = f := toDouble_of_le f hexact
  have hf0 : ¬ f = 0 := by omega
  have hmsg : frameOutOfBounds B (f : Int) =
      "Frame ".toList ++ natToString f ++ " exceeds total frames (".toList ++
        natToString B ++ ")".toList := by
    unfold frameOutOfBounds
    rw [numberToString_natCast f hexact]
  have hspan : parseRanges B (spanText a b) = .error (rangeOutOfBounds B (spanText a b)) := by
    rw [parseRanges_single_term B _ (comma_not_mem_spanText a b) (spanText_not_whiteSpace a b)
      (spanText_ne_nil a b), parseRangeTerm_spanText]
    have hpa := toDouble_pos a ha
    have hpb := toDouble_pos b (le_trans ha hab)
    have hmono := toDouble_mono a b hab
    have h1 : ¬ (toDouble a = 0 ∨ toDouble b = 0 ∨ toDouble b < toDouble a) := by omega
    have h2 : B < toDouble a ∨ B < toDouble b := Or.inr (lt_toDouble B b hB hb)
    rw [if_neg h1, if_pos h2]
    rfl
  refine ⟨?_, ?_, hspan, ?_⟩
  · rw [parseRanges_single_term B _ (not_mem_natToString f ',' (by decide))
      (natToString_not_whiteSpace f) (natToString_spec f).1, parseRangeTerm_natToString,
      hdf, if_neg hf0, if_pos hf, hmsg]
    rfl
  · rw [parseSpecificFrames_single_term B _ (not_mem_natToString f ',' (by decide))
      (natToString_not_whiteSpace f) (natToString_spec f).1, parseSpecificTerm_natToString,
      hdf, if_neg hf0, if_pos hf, hmsg]
    rfl
  · rw [hspan]
    intro h
    have h2 := Except.error.inj h
    simp [rangeOutOfBounds, invalidRangeFormat] at h2

/-- Witness of C7: frame 201 and span `150-201` under bound 200. -/
theorem out_of_bounds_errors_witness :
    natToString 201 = "201".toList ∧ spanText 150 201 = "150-201".toList ∧
    parseRanges 200 (natToString 201) =
      .error ("Frame ".toList ++ natToString 201 ++ " exceeds total frames (".toList ++
        natToString 200 ++ ")".toList) ∧
    parseSpecificFrames 200 (natToString 201) =
      .error ("Frame ".toList ++ natToString 201 ++ " exceeds total frames (".toList ++
        natToString 200 ++ ")".toList) ∧
    parseRanges 200 (spanText 150 201) =
      .error ("Range ".toList ++ spanText 150 201 ++ " exceeds total frames (".toList ++
        natToString 200 ++ ")".toList) ∧
    parseRanges 200 (spanText 150 201) ≠ .error (invalidRangeFormat (spanText 150 201)) :=
  ⟨by decide, by decide,
    out_of_bounds_errors 200 201 150 201 (by decide) (by decide) (by decide) (by decide)
      (by decide) (by decide)⟩

/-- C7, counterexample above `2^53`: under bound 200 the frame 9007199254740993 is
refused by both parsers with a message that names 9007199254740992, the double
that `parseInt` reads, and not the frame written; and the frame `10^21` is
named `1e+21`. -/
theorem out_of_bounds_errors_counterexample :
    natToString 9007199254740993 = "9007199254740993".toList ∧
    parseRanges 200 (natToString 9007199254740993) =
      .error "Frame 9007199254740992 exceeds total frames (200)".toList ∧
    parseSpecificFrames 200 (natToString 9007199254740993) =
      .error "Frame 9007199254740992 exceeds total frames (200)".toList ∧
    ¬ (parseRanges 200 (natToString 9007199254740993) =
      .error ("Frame ".toList ++ natToString 9007199254740993 ++
        " exceeds total frames (".toList ++ natToString 200 ++ ")".toList)) ∧
    parseRanges 200 "1000000000000000000000".toList =
      .error "Frame 1e+21 exceeds total frames (200)".toList := by
  have hparse : parseRanges 200 (natToString 9007199254740993) =
      .error "Frame 9007199254740992 exceeds total frames (200)".toList := by rfl
  refine ⟨by decide, hparse, by rfl, ?_, by rfl⟩
  rw [hparse]
  intro h
  have h2 := Except.error.inj h
  revert h2
  decide

/-- C10. For every bound `B` and all texts that are empty or made of white
space only, `parseRanges` and `parseSpecificFrames` return the empty sequence,
`validateRanges` and `validateSpecificFrames` return no message, and the
summary has `rangeFrameCount = 0`, `specificFrameCount = 0` and
`totalSelectedFrames = 0`. -/
theorem blank_input (B : Nat) (total rangeText specificText : JSString)
    (hr : ∀ c ∈ rangeText, isWhiteSpace c = true)
    (hs : ∀ c ∈ specificText, isWhiteSpace c = true) :
    parseRanges B rangeText = .ok [] ∧
    parseSpecificFrames B specificText = .ok [] ∧
    validateRanges B rangeText = none ∧
    validateSpecificFrames B specificText = none ∧
    ∃ s, calculateFrameSelection B total rangeText specificText = .ok s ∧
      s.rangeFrameCount = 0 ∧ s.specificFrameCount = 0 ∧ s.totalSelectedFrames = 0 := by
  have h1 : parseRanges B rangeText = .ok [] := by
    simp [parseRanges, trim_eq_nil rangeText hr]
  have h2 : parseSpecificFrames B specificText = .ok [] := by
    simp [parseSpecificFrames, trim_eq_nil specificText hs]
  refine ⟨h1, h2, ?_, ?_, _,
    calculateFrameSelection_ok B total rangeText specificText [] [] h1 h2, ?_, ?_, ?_⟩
  · simp [validateRanges, trim_eq_nil rangeText hr]
  · simp [validateSpecificFrames, trim_eq_nil specificText hs]
  · rfl
  · rfl
  · rfl

/-- Witness of C10: an empty range text and a specific text of two spaces and
a tab, under bound 200. -/
theorem blank_input_witness :
    parseRanges 200 [] = .ok [] ∧
    parseSpecificFrames 200 "  \t".toList = .ok [] ∧
    validateRanges 200 [] = none ∧
    validateSpecificFrames 200 "  \t".toList = none ∧
    ∃ s, calculateFrameSelection 200 "50".toList [] "  \t".toList = .ok s ∧
      s.rangeFrameCount = 0 ∧ s.specificFrameCount = 0 ∧ s.totalSelectedFrames = 0 :=
  blank_input 200 "50".toList [] "  \t".toList (by decide) (by decide)

/-- C6. Both parsers are fail-fast. For a text that is not blank, whose
trimmed comma-separated terms are `pre ++ t :: post` with every term of `pre`
valid and `t` the first invalid one, `parseRanges` fails with exactly the
error of `t`, whatever `post` is, and returns no token list; likewise
`parseSpecificFrames` on the comma-separated pieces. In particular a span
`a-b` whose endpoints, as `parseInt` reads them, have `start > end` makes
`parseRanges` fail with `Invalid range format: a-b`, alone or followed by any
further text after a comma; the endpoints are read as written when `a ≤ 2^53`,
so this holds of every `a-b` with `b < a ≤ 2^53`. (A blank text has no terms
to read: both parsers return the empty sequence for it.) -/
theorem fail_fast (B : Nat) :
    (∀ (text : JSString) (pre : List JSString) (t : JSString) (post : List JSString)
        (e : JSString),
      trim text ≠ [] →
      (split ',' text).map trim = pre ++ t :: post →
      (∀ u ∈ pre, ∃ tok, parseRangeTerm B u = .ok tok) →
      parseRangeTerm B t = .error e →
      parseRanges B text = .error e) ∧
    (∀ (text : JSString) (pre : List JSString) (t : JSString) (post : List JSString)
        (e : JSString),
      trim text ≠ [] →
      split ',' text = pre ++ t :: post →
      (∀ u ∈ pre, ∃ n, parseSpecificTerm B u = .ok n) →
      parseSpecificTerm B t = .error e →
      parseSpecificFrames B text = .error e) ∧
    (∀ (a b : Nat) (rest : JSString), toDouble b < toDouble a →
      parseRanges B (spanText a b) =
        .error ("Invalid range format: ".toList ++ spanText a b) ∧
      parseRanges B (spanText a b ++ ',' :: rest) =
        .error ("Invalid range format: ".toList ++ spanText a b)) ∧
    (∀ (a b : Nat) (rest : JSString), b < a → a ≤ 2 ^ 53 →
      parseRanges B (spanText a b) =
        .error ("Invalid range format: ".toList ++ spanText a b) ∧
      parseRanges B (spanText a b ++ ',' :: rest) =
        .error ("Invalid range format: ".toList ++ spanText a b)) := by
  have hthird : ∀ (a b : Nat) (rest : JSString), toDouble b < toDouble a →
      parseRanges B (spanText a b) =
        .error ("Invalid range format: ".toList ++ spanText a b) ∧
      parseRanges B (spanText a b ++ ',' :: rest) =
        .error ("Invalid range format: ".toList ++ spanText a b) := by
    intro a b rest hba
    have hterm : parseRangeTerm B (spanText a b) =
        .error ("Invalid range format: ".toList ++ spanText a b) := by
      rw [parseRangeTerm_spanText, if_pos (Or.inr (Or.inr hba))]
      rfl
    constructor
    · rw [parseRanges_single_term B _ (comma_not_mem_spanText a b)
        (spanText_not_whiteSpace a b) (spanText_ne_nil a b), hterm]
      rfl
    · obtain ⟨c, s, hcs, hc⟩ := spanText_cons a b
      have hne : trim (spanText a b ++ ',' :: rest) ≠ [] := by
        rw [hcs, List.cons_append]
        exact trim_cons_ne_nil c _ hc
      unfold parseRanges
      rw [if_neg hne, split_append_sep ',' _ _ (comma_not_mem_spanText a b), List.map_cons,
        trim_eq_self _ (spanText_not_whiteSpace a b)]
      simp only [parseRangesLoop, hterm]
  refine ⟨?_, ?_, hthird, ?_⟩
  · intro text pre t post e hne hterms hpre ht
    unfold parseRanges
    rw [if_neg hne, hterms]
    exact parseRangesLoop_error B pre t post [] e hpre ht
  · intro text pre t post e hne hterms hpre ht
    unfold parseSpecificFrames
    rw [if_neg hne, hterms]
    exact parseSpecificLoop_error B pre t post e hpre ht
  · intro a b rest hba ha
    apply hthird a b rest
    rw [toDouble_of_le a ha, toDouble_of_le b (by omega)]
    exact hba

/-- Witness of C6: in `1,10-5,7` the first invalid term is `10-5`; in
`1,abc,7` it is `abc`. -/
theorem fail_fast_witness :
    parseRanges 200 "1,10-5,7".toList = .error "Invalid range format: 10-5".toList ∧
    parseSpecificFrames 200 "1,abc,7".toList = .error "Invalid frame number: abc".toList ∧
    parseRanges 200 ("10-5".toList ++ ',' :: "1,2".toList) =
      .error "Invalid range format: 10-5".toList ∧
    parseRanges 200 (spanText 10 5 ++ ',' :: "1,2".toList) =
      .error ("Invalid range format: ".toList ++ spanText 10 5) :=
  ⟨(fail_fast 200).1 "1,10-5,7".toList ["1".toList] "10-5".toList ["7".toList]
      "Invalid range format: 10-5".toList (by decide) (by decide)
      (fun u hu => by
        rw [List.mem_singleton] at hu
        subst hu
        exact ⟨.single 1, rfl⟩)
      rfl,
    (fail_fast 200).2.1 "1,abc,7".toList ["1".toList] "abc".toList ["7".toList]
      "Invalid frame number: abc".toList (by decide) (by decide)
      (fun u hu => by
        rw [List.mem_singleton] at hu
        subst hu
        exact ⟨1, rfl⟩)
      rfl,
    ((fail_fast 200).2.2.1 10 5 "1,2".toList (by decide)).2,
    ((fail_fast 200).2.2.2 10 5 "1,2".toList (by decide) (by decide)).2⟩

/-- C6, counterexample above `2^53`: the span
`9007199254740993-9007199254740992` is written with start above end, but
`parseInt` reads both endpoints as the double `2^53`, the test
`start > end` is false, and under bound 200 `parseRanges` fails with the
out-of-bounds message and not with `Invalid range format`. -/
theorem fail_fast_counterexample :
    spanText 9007199254740993 9007199254740992 =
      "9007199254740993-9007199254740992".toList ∧
    parseRanges 200 (spanText 9007199254740993 9007199254740992) =
      .error "Range 9007199254740993-9007199254740992 exceeds total frames (200)".toList ∧
    ¬ (parseRanges 200 (spanText 9007199254740993 9007199254740992) =
      .error ("Invalid range format: ".toList ++
        spanText 9007199254740993 9007199254740992)) ∧
    parseRanges 200 "10000000000000000000001-10000000000000000000000".toList =
      .error ("Range 10000000000000000000001-10000000000000000000000".toList ++
        " exceeds total frames (200)".toList) := by
  have hparse : parseRanges 200 (spanText 9007199254740993 9007199254740992) =
      .error "Range 9007199254740993-9007199254740992 exceeds total frames (200)".toList := by
    rfl
  refine ⟨by decide, hparse, ?_, by rfl⟩
  rw [hparse]
  intro h
  have h2 := Except.error.inj h
  revert h2
  decide

/-- C8. `parseRanges` on terms outside the documented `N` / `N-M` format:
`12abc` is accepted as frame 12, `3.5` as frame 3, `0x10` as frame 16 and
`1-5-9` as the span 1 to 5, while the empty last term of `1,2,` is rejected as
an invalid frame number. -/
theorem parseRanges_accepts_malformed_terms :
    parseRanges 200 "12abc".toList = .ok [.single 12] ∧
    parseRanges 200 "3.5".toList = .ok [.single 3] ∧
    parseRanges 200 "0x10".toList = .ok [.single 16] ∧
    parseRanges 200 "1-5-9".toList = .ok [.range 1 5] ∧
    parseRanges 200 "1-5abc".toList = .ok [.range 1 5] ∧
    parseRanges 200 "1,2,".toList = .error "Invalid frame number: ".toList :=
  ⟨rfl, rfl, rfl, rfl, rfl, rfl⟩

/-- C9. `parseSpecificFrames` on a term in span syntax: `3-5` is accepted and
returns the frame 3, alone or among other terms, and `validateSpecificFrames`
reports no error for it. -/
theorem parseSpecificFrames_accepts_span :
    parseSpecificFrames 200 "3-5".toList = .ok [3] ∧
    parseSpecificFrames 200 "1, 3-5, 9".toList = .ok [1, 3, 9] ∧
    validateSpecificFrames 200 "3-5".toList = none ∧
    parseSpecificFrames 200 "7abc".toList = .ok [7] :=
  ⟨rfl, rfl, rfl, rfl⟩

/-! ## Token and frame-set invariants -/

theorem parseSpecificTerm_valid (B : Nat) (f : JSString) (n : Int)
    (h : parseSpecificTerm B f = .ok n) : 1 ≤ n ∧ n ≤ (B : Int) := by
  unfold parseSpecificTerm at h
  split at h
  · split_ifs at h with h1 h2
    cases h
    omega
  · cases h

theorem parseSpecificLoop_valid (B : Nat) (terms : List JSString) (frames : List Int)
    (h : parseSpecificLoop B terms = .ok frames) : ∀ n ∈ frames, 1 ≤ n ∧ n ≤ (B : Int) := by
  induction terms generalizing frames with
  | nil =>
    simp only [parseSpecificLoop] at h
    cases h
    simp
  | cons t ts ih =>
    simp only [parseSpecificLoop] at h
    split at h
    · cases h
    · rename_i frame hframe
      split at h
      · cases h
      · rename_i rest hrest
        cases h
        intro n hn
        rcases List.mem_cons.1 hn with rfl | hn
        · exact parseSpecificTerm_valid B t _ hframe
        · exact ih rest hrest n hn

theorem parseSpecificFrames_valid (B : Nat) (frameString : JSString) (frames : List Int)
    (h : parseSpecificFrames B frameString = .ok frames) :
    ∀ n ∈ frames, 1 ≤ n ∧ n ≤ (B : Int) := by
  unfold parseSpecificFrames at h
  split_ifs at h
  · cases h
    simp
  · exact parseSpecificLoop_valid B _ frames h

theorem mem_expandAll_valid (B : Nat) (ranges : List RangeToken)
    (h : ∀ t ∈ ranges, t.Valid B) : ∀ x ∈ expandAll ranges, 1 ≤ x ∧ x ≤ (B : Int) := by
  induction ranges with
  | nil => simp [expandAll]
  | cons t ts ih =>
    intro x hx
    simp only [expandAll, List.mem_append] at hx
    rcases hx with hx | hx
    · have ht := h t (List.mem_cons_self _ _)
      cases t with
      | range start stop =>
        simp only [tokenList, mem_expandSpan] at hx
        simp only [RangeToken.Valid] at ht
        omega
      | single frame =>
        simp only [tokenList, List.mem_singleton] at hx
        simp only [RangeToken.Valid] at ht
        omega
    · exact ih (fun u hu => h u (List.mem_cons_of_mem _ hu)) x hx

theorem mem_newSet (values : List Int) (x : Int) : x ∈ newSet values ↔ x ∈ values := by
  have h := (foldl_newSet values [] List.nodup_nil).2 x
  unfold newSet
  rw [h]
  simp

theorem card_le_of_bounds (B : Nat) (s : Finset Int)
    (h : ∀ x ∈ s, 1 ≤ x ∧ x ≤ (B : Int)) : s.card ≤ B := by
  have hsub : s ⊆ Finset.Icc (1 : Int) (B : Int) := by
    intro x hx
    rw [Finset.mem_Icc]
    exact h x hx
  have hcard := Finset.card_le_card hsub
  rw [Int.card_Icc] at hcard
  omega

/-- C11. For every bound `B` and every text on which `parseRanges` succeeds,
every returned token satisfies the invariant of its variant (`1 ≤ frame ≤ B`
for a single, `1 ≤ start ≤ end ≤ B` for a span); and when the text is not
blank the tokens are, in input order, the results of the trimmed
comma-separated terms, one token per term. (A blank text has no terms and
yields no token.) -/
theorem parseRanges_tokens (B : Nat) (text : JSString) (toks : List RangeToken)
    (h : parseRanges B text = .ok toks) :
    (∀ t ∈ toks, t.Valid B) ∧
    (trim text = [] → toks = []) ∧
    (trim text ≠ [] →
      List.Forall₂ (fun term tok => parseRangeTerm B term = .ok tok)
        ((split ',' text).map trim) toks ∧
      toks.length = (split ',' text).length) := by
  refine ⟨parseRanges_valid B text toks h, ?_, ?_⟩
  · intro hb
    simp only [parseRanges, hb, if_true] at h
    cases h
    rfl
  · intro hb
    simp only [parseRanges, if_neg hb] at h
    obtain ⟨res, hres, hall⟩ := parseRangesLoop_ok B _ _ _ h
    simp only [List.nil_append] at hres
    subst hres
    refine ⟨hall, ?_⟩
    have hlen := List.Forall₂.length_eq hall
    simp only [List.length_map] at hlen
    exact hlen.symm

/-- Witness of C11: the text `1-5, 9,12` under bound 20 gives three valid
tokens in input order. -/
theorem parseRanges_tokens_witness :
    parseRanges 20 "1-5, 9,12".toList = .ok [.range 1 5, .single 9, .single 12] ∧
    (∀ t ∈ [RangeToken.range 1 5, RangeToken.single 9, RangeToken.single 12], t.Valid 20) ∧
    (trim "1-5, 9,12".toList = [] →
      [RangeToken.range 1 5, RangeToken.single 9, RangeToken.single 12] = []) ∧
    (trim "1-5, 9,12".toList ≠ [] →
      List.Forall₂ (fun term tok => parseRangeTerm 20 term = .ok tok)
        ((split ',' "1-5, 9,12".toList).map trim)
        [RangeToken.range 1 5, RangeToken.single 9, RangeToken.single 12] ∧
      [RangeToken.range 1 5, RangeToken.single 9, RangeToken.single 12].length =
        (split ',' "1-5, 9,12".toList).length) :=
  ⟨rfl, parseRanges_tokens 20 "1-5, 9,12".toList
    [.range 1 5, .single 9, .single 12] rfl⟩

/-- C12. For every bound `B` and every successfully parsed range text and
specific-frame text, every frame in the set built by `calculateFrameSelection`
(and so every member of the union of the expanded tokens and the specific
frames) lies in `[1, B]`, and `totalSelectedFrames ≤ B`. -/
theorem frameSet_within_bound (B : Nat) (total rangeText specificText : JSString)
    (ranges : List RangeToken) (specific : List Int)
    (hr : parseRanges B rangeText = .ok ranges)
    (hs : parseSpecificFrames B specificText = .ok specific) :
    (∀ x ∈ newSet ((expandRanges ranges).2 ++ specific), 1 ≤ x ∧ x ≤ (B : Int)) ∧
    (∀ x ∈ selectionUnion ranges specific, 1 ≤ x ∧ x ≤ (B : Int)) ∧
    ∃ s, calculateFrameSelection B total rangeText specificText = .ok s ∧
      s.totalSelectedFrames ≤ B := by
  have hlist : ∀ x ∈ (expandRanges ranges).2 ++ specific, 1 ≤ x ∧ x ≤ (B : Int) := by
    intro x hx
    rw [expandRanges_eq] at hx
    rcases List.mem_append.1 hx with hx | hx
    · exact mem_expandAll_valid B ranges (parseRanges_valid B rangeText ranges hr) x hx
    · exact parseSpecificFrames_valid B specificText specific hs x hx
  have hunion : ∀ x ∈ selectionUnion ranges specific, 1 ≤ x ∧ x ≤ (B : Int) := by
    intro x hx
    apply hlist x
    rw [expandRanges_eq]
    simp only [selectionUnion, ← toFinset_expandAll, ← List.toFinset_append,
      List.mem_toFinset] at hx
    exact hx
  refine ⟨fun x hx => hlist x ((mem_newSet _ x).1 hx), hunion, _,
    calculateFrameSelection_ok B total rangeText specificText ranges specific hr hs, ?_⟩
  simp only [length_newSet]
  apply card_le_of_bounds
  intro x hx
  exact hlist x (List.mem_toFinset.1 hx)

/-- Witness of C12: ranges `1-5`, specific frames `3,4,10`, bound 20. -/
theorem frameSet_within_bound_witness :
    (∀ x ∈ newSet ((expandRanges [.range 1 5]).2 ++ [3, 4, 10]), 1 ≤ x ∧ x ≤ ((20 : Nat) : Int)) ∧
    (∀ x ∈ selectionUnion [.range 1 5] [3, 4, 10], 1 ≤ x ∧ x ≤ ((20 : Nat) : Int)) ∧
    ∃ s, calculateFrameSelection 20 "8".toList "1-5".toList "3,4,10".toList = .ok s ∧
      s.totalSelectedFrames ≤ 20 :=
  frameSet_within_bound 20 "8".toList "1-5".toList "3,4,10".toList [.range 1 5] [3, 4, 10]
    rfl rfl

/-! ## Meaning of `duplicateCount` -/

theorem length_sub_card_eq_sum (L : List Int) :
    (L.length : Int) - (L.toFinset.card : Int) = ∑ f ∈ L.toFinset, ((L.count f : Int) - 1) := by
  rw [Finset.sum_sub_distrib, ← Nat.cast_sum, List.sum_toFinset_count_eq_length]
  simp

theorem card_eq_length_iff_nodup (L : List Int) : L.toFinset.card = L.length ↔ L.Nodup := by
  constructor
  · intro h
    rw [List.card_toFinset] at h
    have heq := (List.dedup_sublist L).eq_of_length h
    rw [← heq]
    exact List.nodup_dedup L
  · exact List.toFinset_card_of_nodup

/-- C19. For every successfully parsed input, with `L` the expanded range
frames followed by the parsed specific frames, `duplicateCount` is the sum
over the distinct frames `f` of `L` of the number of occurrences of `f` in `L`
minus one; it is never negative, and it is zero exactly when no frame occurs
twice in `L`. -/
theorem duplicateCount_meaning (B : Nat) (total rangeText specificText : JSString)
    (ranges : List RangeToken) (specific : List Int)
    (hr : parseRanges B rangeText = .ok ranges)
    (hs : parseSpecificFrames B specificText = .ok specific) :
    ∃ s, calculateFrameSelection B total rangeText specificText = .ok s ∧
      s.duplicateCount =
        ∑ f ∈ (expandAll ranges ++ specific).toFinset,
          (((expandAll ranges ++ specific).count f : Int) - 1) ∧
      0 ≤ s.duplicateCount ∧
      (s.duplicateCount = 0 ↔ (expandAll ranges ++ specific).Nodup) := by
  refine ⟨_, calculateFrameSelection_ok B total rangeText specificText ranges specific hr hs,
    ?_, ?_, ?_⟩
  · simp only [expandRanges_eq, length_newSet]
    rw [← length_sub_card_eq_sum]
    simp
  · simp only [expandRanges_eq, length_newSet]
    have := List.toFinset_card_le (expandAll ranges ++ specific)
    simp only [List.length_append] at this
    omega
  · simp only [expandRanges_eq, length_newSet]
    have hle := List.toFinset_card_le (expandAll ranges ++ specific)
    rw [← card_eq_length_iff_nodup]
    simp only [List.length_append] at hle ⊢
    omega

/-- Witness of C19: ranges `1-3,3` with specific frame `3`: the frame 3 occurs
three times, every other frame once, and `duplicateCount = 2`. -/
theorem duplicateCount_meaning_witness :
    expandAll [.range 1 3, .single 3] ++ [3] = [1, 2, 3, 3, 3] ∧
    calculateFrameSelection 20 "8".toList "1-3,3".toList "3".toList =
      .ok { rangeFrameCount := 4, specificFrameCount := 1, totalSelectedFrames := 3,
            duplicateCount := 2, extraFramesNeeded := some 5, totalRequested := some 8,
            isValid := true } ∧
    ∃ s, calculateFrameSelection 20 "8".toList "1-3,3".toList "3".toList = .ok s ∧
      s.duplicateCount =
        ∑ f ∈ (expandAll [.range 1 3, .single 3] ++ [3]).toFinset,
          (((expandAll [.range 1 3, .single 3] ++ [3]).count f : Int) - 1) ∧
      0 ≤ s.duplicateCount ∧
      (s.duplicateCount = 0 ↔ (expandAll [.range 1 3, .single 3] ++ [3]).Nodup) :=
  ⟨by decide, rfl,
    duplicateCount_meaning 20 "8".toList "1-3,3".toList "3".toList
      [.range 1 3, .single 3] [3] rfl rfl⟩

/-! ## Lemmas on the validators -/

theorem parseRangeTerm_error_ne_nil (B : Nat) (range e : JSString)
    (h : parseRangeTerm B range = .error e) : e ≠ [] := by
  unfold parseRangeTerm parseSpan parseSingle at h
  split_ifs at h
  · split at h
    · split_ifs at h <;> cases h
      · exact List.append_ne_nil_of_left_ne_nil (by decide) _
      · simp [rangeOutOfBounds]
    · cases h
      exact List.append_ne_nil_of_left_ne_nil (by decide) _
  · split at h
    · split_ifs at h <;> cases h
      · exact List.append_ne_nil_of_left_ne_nil (by decide) _
      · simp [frameOutOfBounds]
    · cases h
      exact List.append_ne_nil_of_left_ne_nil (by decide) _

theorem parseRangesLoop_error_ne_nil (B : Nat) (terms : List JSString)
    (parsed : List RangeToken) (e : JSString)
    (h : parseRangesLoop B terms parsed = .error e) : e ≠ [] := by
  induction terms generalizing parsed with
  | nil => simp [parseRangesLoop] at h
  | cons t ts ih =>
    simp only [parseRangesLoop] at h
    split at h
    · rename_i e2 he2
      cases h
      exact parseRangeTerm_error_ne_nil B t _ he2
    · exact ih _ h

theorem parseRanges_error_ne_nil (B : Nat) (text e : JSString)
    (h : parseRanges B text = .error e) : e ≠ [] := by
  unfold parseRanges at h
  split_ifs at h
  exact parseRangesLoop_error_ne_nil B _ _ e h

theorem parseSpecificTerm_error_ne_nil (B : Nat) (f e : JSString)
    (h : parseSpecificTerm B f = .error e) : e ≠ [] := by
  unfold parseSpecificTerm at h
  split at h
  · split_ifs at h <;> cases h
    · exact List.append_ne_nil_of_left_ne_nil (by decide) _
    · simp [frameOutOfBounds]
  · cases h
    exact List.append_ne_nil_of_left_ne_nil (by decide) _

theorem parseSpecificLoop_error_ne_nil (B : Nat) (terms : List JSString) (e : JSString)
    (h : parseSpecificLoop B terms = .error e) : e ≠ [] := by
  induction terms with
  | nil => simp [parseSpecificLoop] at h
  | cons t ts ih =>
    simp only [parseSpecificLoop] at h
    split at h
    · rename_i e2 he2
      cases h
      exact parseSpecificTerm_error_ne_nil B t _ he2
    · split at h
      · rename_i e3 he3
        cases h
        exact ih he3
      · cases h

theorem parseSpecificFrames_error_ne_nil (B : Nat) (text e : JSString)
    (h : parseSpecificFrames B text = .error e) : e ≠ [] := by
  unfold parseSpecificFrames at h
  split_ifs at h
  exact parseSpecificLoop_error_ne_nil B _ e h

theorem keepTruthy_of_ne_nil (m : Option JSString) (h : ∀ e, m = some e → e ≠ []) :
    keepTruthy m = m := by
  cases m with
  | none => rfl
  | some e =>
    cases e with
    | nil => exact absurd rfl (h [] rfl)
    | cons c cs => rfl

/-- The range validator reports no error exactly when the parser succeeds. -/
theorem validateRanges_eq_none_iff (B : Nat) (text : JSString) :
    validateRanges B text = none ↔ ∃ toks, parseRanges B text = .ok toks := by
  unfold validateRanges
  by_cases hb : trim text = []
  · simp [hb, parseRanges]
  · rw [if_neg hb]
    cases parseRanges B text <;> simp

/-- The specific-frame validator reports no error exactly when the parser
succeeds. -/
theorem validateSpecificFrames_eq_none_iff (B : Nat) (text : JSString) :
    validateSpecificFrames B text = none ↔ ∃ frames, parseSpecificFrames B text = .ok frames := by
  unfold validateSpecificFrames
  by_cases hb : trim text = []
  · simp [hb, parseSpecificFrames]
  · rw [if_neg hb]
    cases parseSpecificFrames B text <;> simp

theorem keepTruthy_validateRanges (B : Nat) (text : JSString) :
    keepTruthy (validateRanges B text) = validateRanges B text := by
  apply keepTruthy_of_ne_nil
  intro e he
  unfold validateRanges at he
  split_ifs at he
  split at he
  · cases he
  · rename_i msg hmsg
    cases he
    exact parseRanges_error_ne_nil B text _ hmsg

theorem keepTruthy_validateSpecificFrames (B : Nat) (text : JSString) :
    keepTruthy (validateSpecificFrames B text) = validateSpecificFrames B text := by
  apply keepTruthy_of_ne_nil
  intro e he
  unfold validateSpecificFrames at he
  split_ifs at he
  split at he
  · cases he
  · rename_i msg hmsg
    cases he
    exact parseSpecificFrames_error_ne_nil B text _ hmsg

theorem keepTruthy_validateTotalFrames (B : Nat) (value : JSString) :
    keepTruthy (validateTotalFrames B value) = validateTotalFrames B value := by
  apply keepTruthy_of_ne_nil
  intro e he
  unfold validateTotalFrames at he
  split at he
  · split_ifs at he <;> cases he
    · decide
    · simp
  · cases he
    decide

/-- The total validator reports no error exactly when `parseInt` reads the
text as an integer between 1 and the bound. -/
theorem validateTotalFrames_eq_none_iff (B : Nat) (value : JSString) :
    validateTotalFrames B value = none ↔
      ∃ n, parseInt value = some n ∧ 1 ≤ n ∧ n ≤ (B : Int) := by
  unfold validateTotalFrames
  cases hp : parseInt value with
  | none => simp
  | some num =>
    have hne : value ≠ [] := by
      rintro rfl
      simp [parseInt, trimStart, splitSign, splitRadix, digitsPrefix] at hp
    simp only [hne, false_or, Option.some.injEq, exists_eq_left']
    split_ifs with h1 h2
    · simp only [reduceCtorEq, false_iff]
      omega
    · simp only [reduceCtorEq, false_iff]
      omega
    · simp only [true_iff]
      omega

theorem stepErrors_eq (B : Nat) (st : WizardState) (step : Nat) :
    stepErrors B st step =
      { totalFrames := if step ≥ 1 then validateTotalFrames B st.totalFramesRequested else none
        ranges := if step ≥ 2 then validateRanges B st.frameRanges else none
        specific := if step ≥ 3 then validateSpecificFrames B st.specificFrames else none
        calculation := none } := by
  simp only [stepErrors, keepTruthy_validateTotalFrames, keepTruthy_validateRanges,
    keepTruthy_validateSpecificFrames]

theorem hasNoKeys_stepErrors (B : Nat) (st : WizardState) (step : Nat) :
    (stepErrors B st step).hasNoKeys = true ↔
      (step ≥ 1 → validateTotalFrames B st.totalFramesRequested = none) ∧
      (step ≥ 2 → validateRanges B st.frameRanges = none) ∧
      (step ≥ 3 → validateSpecificFrames B st.specificFrames = none) := by
  rw [stepErrors_eq]
  simp only [ErrorMap.hasNoKeys, Bool.and_eq_true, Option.isNone_iff_eq_none, and_true,
    ite_eq_right_iff, and_assoc]

/-- When every field validates, the reconciliation engine returns a summary. -/
theorem calculateFrameSelection_of_valid (B : Nat) (st : WizardState)
    (hT : validateTotalFrames B st.totalFramesRequested = none)
    (hR : validateRanges B st.frameRanges = none)
    (hS : validateSpecificFrames B st.specificFrames = none) :
    ∃ s n, calculateFrameSelection B st.totalFramesRequested st.frameRanges
        st.specificFrames = .ok s ∧
      s.totalRequested = some n ∧ 1 ≤ n ∧ n ≤ (B : Int) := by
  obtain ⟨n, hn, h1, h2⟩ := (validateTotalFrames_eq_none_iff B _).1 hT
  obtain ⟨toks, htoks⟩ := (validateRanges_eq_none_iff B _).1 hR
  obtain ⟨frames, hframes⟩ := (validateSpecificFrames_eq_none_iff B _).1 hS
  exact ⟨_, n, calculateFrameSelection_ok B _ _ _ toks frames htoks hframes, hn, h1, h2⟩

theorem nextStep_of_fail (B : Nat) (st : WizardState)
    (h : (stepErrors B st st.currentStep).hasNoKeys = false) :
    nextStep B st = { st with errors := stepErrors B st st.currentStep } := by
  simp [nextStep, handleStepValidation, h]

theorem nextStep_of_pass_ne_three (B : Nat) (st : WizardState)
    (h : (stepErrors B st st.currentStep).hasNoKeys = true) (h3 : st.currentStep ≠ 3) :
    nextStep B st =
      { st with errors := stepErrors B st st.currentStep
                currentStep := min (st.currentStep + 1) 4 } := by
  simp [nextStep, handleStepValidation, h, h3]

theorem nextStep_of_pass_three (B : Nat) (st : WizardState)
    (h : (stepErrors B st st.currentStep).hasNoKeys = true) (h3 : st.currentStep = 3) :
    ∃ s, calculateFrameSelection B st.totalFramesRequested st.frameRanges
        st.specificFrames = .ok s ∧
      nextStep B st =
        { st with errors := stepErrors B st st.currentStep
                  calculation := some s
                  currentStep := 4 } := by
  obtain ⟨hT, hR, hS⟩ := (hasNoKeys_stepErrors B st st.currentStep).1 h
  obtain ⟨s, n, hs, _⟩ := calculateFrameSelection_of_valid B st (hT (by omega)) (hR (by omega))
    (hS (by omega))
  refine ⟨s, hs, ?_⟩
  have h4 : (stepErrors B st 3).hasNoKeys = true := h3 ▸ h
  simp [nextStep, handleStepValidation, h4, h3, hs]

/-! ## Wizard: claims -/

/-- C13. Advance contract. At a step `s` of 1, 2 or 3, `nextStep` looks at
the requested total, at the range text when `s ≥ 2` and at the specific text
when `s ≥ 3`, and at no other field. If all of these validate, the step
becomes `s + 1`, the three texts are unchanged and the error map is empty.
Otherwise the step, the texts and the summary are unchanged and the error map
holds, under `totalFrames`, `ranges` and `specific`, the message of each
failing field and no other key. -/
theorem nextStep_contract (B : Nat) (st : WizardState)
    (hstep : st.currentStep = 1 ∨ st.currentStep = 2 ∨ st.currentStep = 3) :
    ((validateTotalFrames B st.totalFramesRequested = none ∧
        (2 ≤ st.currentStep → validateRanges B st.frameRanges = none) ∧
        (3 ≤ st.currentStep → validateSpecificFrames B st.specificFrames = none)) →
      (nextStep B st).currentStep = st.currentStep + 1 ∧
      (nextStep B st).totalFramesRequested = st.totalFramesRequested ∧
      (nextStep B st).frameRanges = st.frameRanges ∧
      (nextStep B st).specificFrames = st.specificFrames ∧
      (nextStep B st).errors = ErrorMap.empty) ∧
    (¬ (validateTotalFrames B st.totalFramesRequested = none ∧
        (2 ≤ st.currentStep → validateRanges B st.frameRanges = none) ∧
        (3 ≤ st.currentStep → validateSpecificFrames B st.specificFrames = none)) →
      (nextStep B st).currentStep = st.currentStep ∧
      (nextStep B st).totalFramesRequested = st.totalFramesRequested ∧
      (nextStep B st).frameRanges = st.frameRanges ∧
      (nextStep B st).specificFrames = st.specificFrames ∧
      (nextStep B st).calculation = st.calculation ∧
      (nextStep B st).errors.totalFrames = validateTotalFrames B st.totalFramesRequested ∧
      (nextStep B st).errors.ranges =
        (if 2 ≤ st.currentStep then validateRanges B st.frameRanges else none) ∧
      (nextStep B st).errors.specific =
        (if 3 ≤ st.currentStep then validateSpecificFrames B st.specificFrames else none) ∧
      (nextStep B st).errors.calculation = none) := by
  have h1 : st.currentStep ≥ 1 := by omega
  have hkeys := hasNoKeys_stepErrors B st st.currentStep
  constructor
  · rintro ⟨hT, hR, hS⟩
    have hpass : (stepErrors B st st.currentStep).hasNoKeys = true :=
      hkeys.2 ⟨fun _ => hT, hR, hS⟩
    have herr : stepErrors B st st.currentStep = ErrorMap.empty := by
      rw [stepErrors_eq]
      simp only [ErrorMap.empty, ErrorMap.mk.injEq, ite_eq_right_iff, and_true]
      exact ⟨fun _ => hT, hR, hS⟩
    by_cases h3 : st.currentStep = 3
    · obtain ⟨s, _, hnext⟩ := nextStep_of_pass_three B st hpass h3
      rw [hnext, herr]
      simp [h3]
    · rw [nextStep_of_pass_ne_three B st hpass h3, herr]
      have : min (st.currentStep + 1) 4 = st.currentStep + 1 := by omega
      simp [this]
  · intro hfail
    have hnot : (stepErrors B st st.currentStep).hasNoKeys = false := by
      rw [Bool.eq_false_iff]
      intro hp
      obtain ⟨hT, hR, hS⟩ := hkeys.1 hp
      exact hfail ⟨hT h1, hR, hS⟩
    rw [nextStep_of_fail B st hnot, stepErrors_eq]
    simp [h1]

/-- Witness of C13: at step 3 with the specific text `abc` the step stays 3
and a message is stored under `specific`. -/
theorem nextStep_contract_witness :
    (nextStep 200 (stateAt 3 "8".toList "1-5".toList "abc".toList)).currentStep = 3 ∧
    (nextStep 200 (stateAt 3 "8".toList "1-5".toList "abc".toList)).errors.specific =
      some "Invalid frame number: abc".toList :=
  have h := (nextStep_contract 200 (stateAt 3 "8".toList "1-5".toList "abc".toList)
      (Or.inr (Or.inr rfl))).2
    (fun hall => absurd (hall.2.2 (Nat.le_refl 3)) (by decide))
  ⟨h.1, h.2.2.2.2.2.2.2.1.trans rfl⟩

/-- C14. `validateTotalFrames` on texts that are not decimal numerals of an
integer within the bound: `1e3` (which denotes 1000) is accepted under bound
200, as are `1e2`, `3.7` and `12abc`; the empty text, `abc`, `0` and `201` are
rejected. -/
theorem validateTotalFrames_accepts_non_integers :
    validateTotalFrames 200 "1e3".toList = none ∧
    validateTotalFrames 200 "1e2".toList = none ∧
    validateTotalFrames 200 "3.7".toList = none ∧
    validateTotalFrames 200 "12abc".toList = none ∧
    parseInt "1e3".toList = some 1 ∧
    validateTotalFrames 200 [] = some "Please enter a valid positive number".toList ∧
    validateTotalFrames 200 "abc".toList = some "Please enter a valid positive number".toList ∧
    validateTotalFrames 200 "0".toList = some "Please enter a valid positive number".toList ∧
    validateTotalFrames 200 "201".toList =
      some "Cannot exceed total available frames (200)".toList :=
  ⟨rfl, rfl, rfl, rfl, rfl, rfl, rfl, rfl, rfl⟩

/-- C15. `prevStep` never fails and does not look at any field: from step `s`
it goes to `s - 1`, staying at 1 when `s = 1`; it empties the error map and
leaves the three texts and the computed summary unchanged. -/
theorem prevStep_effect (st : WizardState) :
    (prevStep st).currentStep = (if st.currentStep ≤ 1 then 1 else st.currentStep - 1) ∧
    (prevStep st).errors = ErrorMap.empty ∧
    (prevStep st).totalFramesRequested = st.totalFramesRequested ∧
    (prevStep st).frameRanges = st.frameRanges ∧
    (prevStep st).specificFrames = st.specificFrames ∧
    (prevStep st).calculation = st.calculation := by
  refine ⟨?_, rfl, rfl, rfl, rfl, rfl⟩
  simp only [prevStep]
  split_ifs <;> omega

/-- C17. Whenever `handleStepValidation(3)` succeeds, `calculateFrameSelection`
on the same state returns a summary, whose `totalRequested` is an integer
between 1 and the bound; at step 3 `nextStep` then stores that summary and goes
to step 4. `nextStep` never sets the `calculation` key of the error map. -/
theorem reconciliation_never_fails (B : Nat) (st : WizardState)
    (h : (handleStepValidation B st 3).2 = true) :
    (∃ s n, calculateFrameSelection B st.totalFramesRequested st.frameRanges
          st.specificFrames = .ok s ∧
        s.totalRequested = some n ∧ 1 ≤ n ∧ n ≤ (B : Int) ∧
        (st.currentStep = 3 →
          (nextStep B st).currentStep = 4 ∧ (nextStep B st).calculation = some s)) ∧
    (nextStep B st).errors.calculation = none := by
  constructor
  · obtain ⟨hT, hR, hS⟩ := (hasNoKeys_stepErrors B st 3).1 h
    obtain ⟨s, n, hs, hn, h1, h2⟩ := calculateFrameSelection_of_valid B st (hT (by omega))
      (hR (by omega)) (hS (by omega))
    refine ⟨s, n, hs, hn, h1, h2, fun h3 => ?_⟩
    have hpass : (stepErrors B st st.currentStep).hasNoKeys = true := by
      rw [h3]
      exact h
    obtain ⟨s2, hs2, hnext⟩ := nextStep_of_pass_three B st hpass h3
    rw [hs] at hs2
    cases hs2
    rw [hnext]
    exact ⟨rfl, rfl⟩
  · cases hk : (stepErrors B st st.currentStep).hasNoKeys with
    | false =>
      rw [nextStep_of_fail B st hk]
      rfl
    | true =>
      by_cases h3 : st.currentStep = 3
      · obtain ⟨s, _, hnext⟩ := nextStep_of_pass_three B st hk h3
        rw [hnext]
        rfl
      · rw [nextStep_of_pass_ne_three B st hk h3]
        rfl

/-- Witness of C17: the state at step 3 with total `8`, ranges `1-5` and
specific frames `3,4,10`, under bound 20. -/
theorem reconciliation_never_fails_witness :
    (∃ s n, calculateFrameSelection 20 "8".toList "1-5".toList "3,4,10".toList = .ok s ∧
        s.totalRequested = some n ∧ 1 ≤ n ∧ n ≤ ((20 : Nat) : Int) ∧
        ((3 : Nat) = 3 →
          (nextStep 20 (stateAt 3 "8".toList "1-5".toList "3,4,10".toList)).currentStep = 4 ∧
          (nextStep 20 (stateAt 3 "8".toList "1-5".toList "3,4,10".toList)).calculation = some s)) ∧
    (nextStep 20 (stateAt 3 "8".toList "1-5".toList "3,4,10".toList)).errors.calculation = none :=
  reconciliation_never_fails 20 (stateAt 3 "8".toList "1-5".toList "3,4,10".toList) rfl

theorem nextStep_invariant (B : Nat) (st : WizardState) (h : WizardInvariant B st) :
    WizardInvariant B (nextStep B st) ∧
      st.currentStep ≤ (nextStep B st).currentStep ∧
      (nextStep B st).currentStep ≤ st.currentStep + 1 := by
  obtain ⟨h1, h4, hfour⟩ := h
  cases hk : (stepErrors B st st.currentStep).hasNoKeys with
  | false =>
    rw [nextStep_of_fail B st hk]
    exact ⟨⟨h1, h4, hfour⟩, Nat.le_refl _, Nat.le_succ _⟩
  | true =>
    by_cases h3 : st.currentStep = 3
    · obtain ⟨s, hs, hnext⟩ := nextStep_of_pass_three B st hk h3
      obtain ⟨hT, hR, hS⟩ := (hasNoKeys_stepErrors B st st.currentStep).1 hk
      rw [hnext]
      refine ⟨⟨by simp, by simp, fun _ => ?_⟩, by simp [h3], by simp [h3]⟩
      exact ⟨s, rfl, hs, hT (by omega), hR (by omega), hS (by omega)⟩
    · rw [nextStep_of_pass_ne_three B st hk h3]
      refine ⟨⟨?_, ?_, fun hnew => ?_⟩, ?_, ?_⟩
      · simp only
        omega
      · simp only
        omega
      · simp only at hnew
        have hst : st.currentStep = 4 := by omega
        exact hfour hst
      · simp only
        omega
      · simp only
        omega

theorem prevStep_invariant (B : Nat) (st : WizardState) (h : WizardInvariant B st) :
    WizardInvariant B (prevStep st) ∧
      (prevStep st).currentStep ≤ st.currentStep ∧
      st.currentStep ≤ (prevStep st).currentStep + 1 := by
  obtain ⟨h1, h4, _⟩ := h
  refine ⟨⟨?_, ?_, fun hnew => ?_⟩, ?_, ?_⟩
  · simp only [prevStep]
    omega
  · simp only [prevStep]
    omega
  · simp only [prevStep] at hnew
    omega
  · simp only [prevStep]
    omega
  · simp only [prevStep]
    omega

theorem initial_invariant (B : Nat) : WizardInvariant B WizardState.initial :=
  ⟨Nat.le_refl 1, by decide, fun h => absurd h (by decide)⟩

theorem applyAction_invariant (B : Nat) (st : WizardState) (a : WizardAction)
    (h : WizardInvariant B st) : WizardInvariant B (applyAction B st a) := by
  cases a with
  | next => exact (nextStep_invariant B st h).1
  | prev => exact (prevStep_invariant B st h).1
  | reset => exact initial_invariant B
  | setTotalFramesRequested v =>
    simp only [applyAction]
    split_ifs with hs
    · exact ⟨by simp [hs], by simp [hs], fun h4 => by simp [hs] at h4⟩
    · exact h
  | setFrameRanges v =>
    simp only [applyAction]
    split_ifs with hs
    · exact ⟨by simp [hs], by simp [hs], fun h4 => by simp [hs] at h4⟩
    · exact h
  | setSpecificFrames v =>
    simp only [applyAction]
    split_ifs with hs
    · exact ⟨by simp [hs], by simp [hs], fun h4 => by simp [hs] at h4⟩
    · exact h

theorem foldl_applyAction_invariant (B : Nat) (actions : List WizardAction) (st : WizardState)
    (h : WizardInvariant B st) : WizardInvariant B (actions.foldl (applyAction B) st) := by
  induction actions generalizing st with
  | nil => exact h
  | cons a as ih => exact ih _ (applyAction_invariant B st a h)

/-- C18. For every state reached from the initial state by any sequence of
`nextStep`, `prevStep`, `reset` and edits of the text shown at the current
step: the step is between 1 and 4; `nextStep` leaves it or raises it by one and
`prevStep` leaves it or lowers it by one; and at step 4 the summary is present,
equals the result of `calculateFrameSelection` on the current texts, and all
three texts validate. -/
theorem wizard_reachable_invariant (B : Nat) (actions : List WizardAction) :
    (1 ≤ (runActions B actions).currentStep ∧ (runActions B actions).currentStep ≤ 4) ∧
    ((runActions B actions).currentStep ≤ (nextStep B (runActions B actions)).currentStep ∧
      (nextStep B (runActions B actions)).currentStep ≤
        (runActions B actions).currentStep + 1) ∧
    ((prevStep (runActions B actions)).currentStep ≤ (runActions B actions).currentStep ∧
      (runActions B actions).currentStep ≤
        (prevStep (runActions B actions)).currentStep + 1) ∧
    ((runActions B actions).currentStep = 4 →
      ∃ s, (runActions B actions).calculation = some s ∧
        calculateFrameSelection B (runActions B actions).totalFramesRequested
          (runActions B actions).frameRanges (runActions B actions).specificFrames = .ok s ∧
        validateTotalFrames B (runActions B actions).totalFramesRequested = none ∧
        validateRanges B (runActions B actions).frameRanges = none ∧
        validateSpecificFrames B (runActions B actions).specificFrames = none) := by
  have hinv : WizardInvariant B (runActions B actions) :=
    foldl_applyAction_invariant B actions _ (initial_invariant B)
  exact ⟨⟨hinv.1, hinv.2.1⟩, (nextStep_invariant B _ hinv).2, (prevStep_invariant B _ hinv).2,
    hinv.2.2⟩

/-- Witness of C18: a run that reaches step 4, goes back to step 3, changes
the specific frames and reaches step 4 again; the summary is the one of the
current texts. -/
theorem wizard_reachable_invariant_witness :
    (runActions 20 [.setTotalFramesRequested "8".toList, .next,
      .setFrameRanges "1-5".toList, .next, .setSpecificFrames "3,4,10".toList, .next,
      .prev, .setSpecificFrames "7".toList, .next]).currentStep = 4 ∧
    ∃ s, (runActions 20 [.setTotalFramesRequested "8".toList, .next,
        .setFrameRanges "1-5".toList, .next, .setSpecificFrames "3,4,10".toList, .next,
        .prev, .setSpecificFrames "7".toList, .next]).calculation = some s ∧
      calculateFrameSelection 20 "8".toList "1-5".toList "7".toList = .ok s :=
  ⟨rfl,
    match (wizard_reachable_invariant 20 [.setTotalFramesRequested "8".toList, .next,
        .setFrameRanges "1-5".toList, .next, .setSpecificFrames "3,4,10".toList, .next,
        .prev, .setSpecificFrames "7".toList, .next]).2.2.2 rfl with
    | ⟨s, hs, hcalc, _⟩ => ⟨s, hs, hcalc⟩⟩

/-! ## Upload validator: claims -/

/-- C16. `validateFile` on names without a `.`: the file named `pdb` is
accepted, its whole name being taken for the extension, and so is `XYZ`; a name
such as `noext` is rejected. For names with an extension the check is as
stated: case is ignored, a size of exactly 500 MiB is accepted, one byte more
is rejected, and an unsupported extension is reported before the size. -/
theorem validateFile_accepts_dotless_name :
    validateFile "pdb".toList 10 = none ∧
    validateFile "XYZ".toList 10 = none ∧
    fileExtension "pdb".toList = ".pdb".toList ∧
    validateFile "noext".toList 10 = some (.unsupportedType ".noext".toList) ∧
    validateFile "a.PDB".toList (500 * 1024 * 1024) = none ∧
    validateFile "traj.v2.Mol2".toList 0 = none ∧
    validateFile "a.pdb".toList (500 * 1024 * 1024 + 1) =
      some (.sizeExceeded (500 * 1024 * 1024 + 1)) ∧
    validateFile "a.txt".toList (500 * 1024 * 1024 + 1) =
      some (.unsupportedType ".txt".toList) := by
  refine ⟨?_, ?_, ?_, ?_, ?_, ?_, ?_, ?_⟩ <;> decide

end Frames
